import Mathlib

/-!
Verification development for the CRUCIBLE-EXCHANGE repository.

The Python sources `src/fix_engine.py` and `src/exchange_server.py` are
shallowly embedded below.  Strings are modelled as `List Char` (the messages
are ASCII, so Python `len`/`ord` agree with `List.length`/`Char.toNat`),
Python `float` prices as `ℚ`, Python `int` as `ℤ`, and `None` as `Option`.
Mutable heap objects (orders shared between the `orders` dict and the side
queues) are modelled by an order store indexed by `order_id`; the queues hold
order ids.  Python's stable `list.sort(key=...)` is modelled by a stable
insertion sort parameterised by a boolean comparison.
-/

/-- The SOH (0x01) field delimiter. -/
def SOHc : Char := Char.ofNat 1

/-- Convert a string literal to the `List Char` representation used throughout. -/
def str (x : String) : List Char := x.toList

/-- Python `s.split(sep)` on characters: always returns at least one piece,
splits at every occurrence of `sep`. -/
def splitChar (sep : Char) : List Char → List (List Char)
  | [] => [[]]
  | c :: cs =>
    if c = sep then [] :: splitChar sep cs
    else
      match splitChar sep cs with
      | [] => [[c]]
      | r :: rs => (c :: r) :: rs

/-- Python `s.split(sep, 1)` when `sep` occurs: the part before the first
occurrence and the part after it. -/
def splitFirst (sep : Char) : List Char → (List Char × List Char)
  | [] => ([], [])
  | c :: cs =>
    if c = sep then ([], cs)
    else
      let r := splitFirst sep cs
      (c :: r.1, r.2)

/-- One Python dict assignment `d[t] = v` over a functional map. -/
def dUpd (m : List Char → Option (List Char)) (tv : List Char × List Char) :
    List Char → Option (List Char) :=
  fun k => if k = tv.1 then some tv.2 else m k

/-- Python dict built by repeated assignment (`d[t] = v`): later pairs win. -/
def dictOf (ps : List (List Char × List Char)) : List Char → Option (List Char) :=
  ps.foldl dUpd (fun _ => none)

/-- `d.get(k, dflt)`. -/
def dictGetD (m : List Char → Option (List Char)) (k dflt : List Char) : List Char :=
  (m k).getD dflt

/-- The decimal digit character of `d` (for `d < 10`). -/
def digitChar (d : Nat) : Char := Char.ofNat (48 + d)

/-- Decimal rendering of a natural number, with explicit fuel so that the
kernel can evaluate it. -/
def natCharsF : Nat → Nat → List Char
  | 0, _ => []
  | f + 1, n =>
    if n < 10 then [digitChar n]
    else natCharsF f (n / 10) ++ [digitChar (n % 10)]

/-- Decimal rendering of a natural number (no leading zeros; `0 ↦ "0"`). -/
def natChars (n : Nat) : List Char := natCharsF (n + 1) n

/-- Python `str(i)` for an integer. -/
def intChars (i : Int) : List Char :=
  if i < 0 then '-' :: natChars i.natAbs else natChars i.natAbs

/-- Python `f"{n:0wd}"`: pad with leading zeros to width `w`. -/
def padZ (w : Nat) (cs : List Char) : List Char :=
  List.replicate (w - cs.length) '0' ++ cs

/-- Parse a digit list back to a natural number (used to show the renderings
are injective). -/
def natVal (cs : List Char) : Nat :=
  cs.foldl (fun a c => 10 * a + (c.toNat - 48)) 0

/-- Sum of the byte values of a string modulo 256: the FIX checksum of
`fix_engine._calculate_checksum` and of `build_fix_message`. -/
def chksum (s : List Char) : Nat := (s.map Char.toNat).sum % 256

/-- Stable insertion of `x` into `l`: `x` is placed before the first element
strictly greater than it, hence after every earlier element that compares
equal.  This is the insertion step of a stable sort. -/
def insStable (le : α → α → Bool) (x : α) : List α → List α
  | [] => [x]
  | y :: ys =>
    if le x y && !le y x then x :: y :: ys else y :: insStable le x ys

/-- Python's stable `list.sort` with boolean comparison `le` (for
`reverse=True` sorts, pass the flipped comparison, which is how CPython's
stable descending sort behaves on equal keys). -/
def pySort (le : α → α → Bool) (l : List α) : List α :=
  l.foldl (fun acc x => insStable le x acc) []

/-! ## Codec model: `src/fix_engine.py` -/

/-- Render a list of tag-value pairs as `tag=value<SOH>` fields, as the
`create_*` builders of `FIXEngine` lay out message bodies. -/
def renderFields (ps : List (List Char × List Char)) : List Char :=
  (ps.map (fun tv => tv.1 ++ '=' :: tv.2 ++ [SOHc])).flatten

/-- The full tag-value field sequence of a message produced by
`FIXEngine._build_message`: fixed header tags 8 and 9, the
`_build_header` tags 35/49/56/34/52, the body pairs, then tag 10. -/
def engineMsgFields (mt sender target : List Char) (seq : Nat) (ts : List Char)
    (body : List (List Char × List Char)) : List (List Char × List Char) :=
  let content := renderFields ([(str "35", mt), (str "49", sender), (str "56", target),
    (str "34", natChars seq), (str "52", ts)] ++ body)
  let woChk := renderFields [(str "8", str "FIX.4.2"), (str "9", natChars content.length)]
    ++ content
  [(str "8", str "FIX.4.2"), (str "9", natChars content.length),
   (str "35", mt), (str "49", sender), (str "56", target),
   (str "34", natChars seq), (str "52", ts)] ++ body
  ++ [(str "10", padZ 3 (natChars (chksum woChk)))]

/-- `FIXEngine._build_message` (with `_build_header` inlined): header, body
pairs, body length, checksum, trailer.  `sender`, `target`, `seq` and `ts`
stand for the engine's `sender_comp_id`, `target_comp_id`, `msg_seq_num`
and `_get_timestamp()`. -/
def buildMessage (mt sender target : List Char) (seq : Nat) (ts : List Char)
    (body : List (List Char × List Char)) : List Char :=
  let content := renderFields ([(str "35", mt), (str "49", sender), (str "56", target),
    (str "34", natChars seq), (str "52", ts)] ++ body)
  let woChk := renderFields [(str "8", str "FIX.4.2"), (str "9", natChars content.length)]
    ++ content
  woChk ++ str "10=" ++ padZ 3 (natChars (chksum woChk)) ++ [SOHc]

/-- `FIXEngine.parse_message`: split at SOH, keep fields containing `=`,
split each at the first `=`, last assignment wins. -/
def parseMessage (raw : List Char) : List Char → Option (List Char) :=
  dictOf ((splitChar SOHc raw).filterMap
    (fun f => if '=' ∈ f then some (splitFirst '=' f) else none))

/-- Python `s.rfind(pat)`: the largest index at which `pat` occurs, if any. -/
def rfindP (pat s : List Char) : Option Nat :=
  ((List.range (s.length + 1)).filter (fun i => pat.isPrefixOf (s.drop i))).getLast?

/-- `FIXEngine.validate_checksum`: locate the last `10=`, recompute the sum
of everything before it, compare with the three characters claimed. -/
def validateChecksum (raw : List Char) : Bool :=
  match rfindP (str "10=") raw with
  | none => false
  | some i =>
    let woChk := raw.take i
    let chkField := (splitChar SOHc (raw.drop i)).headI
    let provided := (splitChar '=' chkField).getD 1 []
    provided = padZ 3 (natChars (chksum woChk))

/-! ## Server model: `src/exchange_server.py`

Orders are mutable objects shared between the `orders` dict and the per-symbol
side lists; the model keeps a single store (`Book.orders`, insertion-ordered
like a Python dict) and lets the side queues hold `order_id`s.  Since order
ids are unique, Python's field-wise dataclass equality used by `in`/`remove`
coincides with id equality.  The optional database and WebSocket sinks are
no-ops here (the spec requires identical behaviour without them), and the
per-book `threading.Lock` disappears in this single-threaded semantics. -/

/-- `Order` dataclass.  `side`, `order_type` and `cl_ord_id` come straight
from `tags.get(...)` and may be `None`; `symbol` is only stored after the
whitelist check, hence total.  Prices (Python floats) are rationals and the
`time.time()` timestamp is a rational supplied by the caller. -/
structure Order where
  order_id : List Char
  cl_ord_id : Option (List Char)
  symbol : List Char
  side : Option (List Char)
  order_qty : Int
  order_type : Option (List Char)
  price : Option ℚ
  filled_qty : Int
  status : List Char
  timestamp : ℚ
deriving DecidableEq

/-- `Order.remaining_qty`. -/
def Order.remaining (o : Order) : Int := o.order_qty - o.filled_qty

/-- `Order.is_complete`: `filled_qty >= order_qty`. -/
def Order.isComplete (o : Order) : Bool := o.order_qty ≤ o.filled_qty

/-- One entry of the `executions` ring: the fields of the dict built in
`match_orders` that carry trading data (the wall-clock timestamp and the
constant `'side': 'Buy'` are dropped). -/
structure ExecRec where
  symbol : List Char
  last_qty : Int
  last_px : ℚ
  buyFilled : Bool
deriving DecidableEq

/-- The `OrderBook` state: orders dict, side queues (a total function; an
absent dict key reads as the empty list, which the operations below treat
exactly as Python treats a missing key), the two id counters and the
bounded execution ring. -/
structure Book where
  orders : List Order
  buyQ : List Char → List (List Char)
  sellQ : List Char → List (List Char)
  orderCounter : Nat
  execCounter : Nat
  executions : List ExecRec

/-- `OrderBook.get_order` / `self.orders.get(order_id)`. -/
def getOrder (bk : Book) (oid : List Char) : Option Order :=
  bk.orders.find? (fun o => o.order_id = oid)

/-- Placeholder order used when a queue id fails to resolve; in every
reachable state queue ids resolve, so this value is never consulted. -/
def blankOrder : Order := ⟨[], none, [], none, 0, none, none, 0, [], 0⟩

/-- Dereference an order id against the store (queue entries are references
to live objects in Python). -/
def ordOf (store : List Order) (oid : List Char) : Order :=
  (store.find? (fun o => o.order_id = oid)).getD blankOrder

/-- Mutation of the object with id `o'.order_id` (visible through every
container that references it). -/
def setOrder (store : List Order) (o' : Order) : List Order :=
  store.map (fun o => if o.order_id = o'.order_id then o' else o)

/-- `self.orders[order.order_id] = order`: dict assignment. -/
def dictInsertOrder (store : List Order) (o : Order) : List Order :=
  if store.any (fun x => x.order_id = o.order_id) then setOrder store o
  else store ++ [o]

/-- `f"ORD{n:06d}"`. -/
def mkOrderId (n : Nat) : List Char := str "ORD" ++ padZ 6 (natChars n)

/-- `f"EXEC{n:06d}"`. -/
def mkExecId (n : Nat) : List Char := str "EXEC" ++ padZ 6 (natChars n)

/-- Python truthiness fallback `p or d` on an optional float (`None` and
`0.0` are falsy). -/
def truthyD (p : Option ℚ) (d : ℚ) : ℚ :=
  match p with
  | none => d
  | some x => if x = 0 then d else x

/-- The add-time buy sort key `x.price if x.price else float('inf')` with
`none` standing for `+∞`. -/
def effAddTop (o : Order) : Option ℚ :=
  match o.price with
  | none => none
  | some p => if p = 0 then none else some p

/-- Lexicographic `≤` on `(price, timestamp)` keys whose price component
treats `none` as `+∞`. -/
def leTopLex (a b : Option ℚ × ℚ) : Bool :=
  match a.1, b.1 with
  | some x, some y => if x < y then true else if y < x then false else decide (a.2 ≤ b.2)
  | some _, none => true
  | none, some _ => false
  | none, none => decide (a.2 ≤ b.2)

/-- Comparison realising `sort(key=(price or inf, ts), reverse=True)` of
`add_order`'s buy side: a stable ascending sort under `le i j` iff
`key j ≤ key i` is exactly CPython's stable descending sort. -/
def addBuyLe (store : List Order) (i j : List Char) : Bool :=
  leTopLex (effAddTop (ordOf store j), (ordOf store j).timestamp)
    (effAddTop (ordOf store i), (ordOf store i).timestamp)

/-- `add_order`'s sell-side key `(x.price if x.price else 0, x.timestamp)`,
ascending. -/
def addSellLe (store : List Order) (i j : List Char) : Bool :=
  let a := ordOf store i
  let b := ordOf store j
  let pa := truthyD a.price 0
  let pb := truthyD b.price 0
  if pa < pb then true else if pb < pa then false else decide (a.timestamp ≤ b.timestamp)

/-- `match_orders`' buy key `(-(o.price or 0), o.timestamp)` ascending; the
leading negation is realised by flipping the price comparison. -/
def matchBuyLe (store : List Order) (i j : List Char) : Bool :=
  let a := ordOf store i
  let b := ordOf store j
  let pa := truthyD a.price 0
  let pb := truthyD b.price 0
  if pb < pa then true else if pa < pb then false else decide (a.timestamp ≤ b.timestamp)

/-- `match_orders`' sell key `(o.price or float('inf'), o.timestamp)`
ascending, with `none` as `+∞`. -/
def matchSellLe (store : List Order) (i j : List Char) : Bool :=
  let a := ordOf store i
  let b := ordOf store j
  leTopLex (effAddTop a, a.timestamp) (effAddTop b, b.timestamp)

/-- `OrderBook.add_order`: insert into the dict, append to the proper side
list and stably re-sort that list. -/
def addOrder (bk : Book) (o : Order) : Book :=
  let store := dictInsertOrder bk.orders o
  if o.side = some (str "1") then
    { bk with
      orders := store,
      buyQ := fun s =>
        if s = o.symbol then pySort (addBuyLe store) (bk.buyQ o.symbol ++ [o.order_id])
        else bk.buyQ s }
  else
    { bk with
      orders := store,
      sellQ := fun s =>
        if s = o.symbol then pySort (addSellLe store) (bk.sellQ o.symbol ++ [o.order_id])
        else bk.sellQ s }

/-- `OrderBook.cancel_order`: `False` when the id is unknown; otherwise set
status `"4"` (unconditionally — terminal states included) and remove the
first matching element from the active side list. -/
def cancelOrder (bk : Book) (oid : List Char) : Bool × Book :=
  match getOrder bk oid with
  | none => (false, bk)
  | some o =>
    let store := setOrder bk.orders { o with status := str "4" }
    if o.side = some (str "1") then
      (true, { bk with
        orders := store,
        buyQ := fun s => if s = o.symbol then (bk.buyQ o.symbol).erase oid else bk.buyQ s })
    else
      (true, { bk with
        orders := store,
        sellQ := fun s => if s = o.symbol then (bk.sellQ o.symbol).erase oid else bk.sellQ s })

/-- `OrderBook.add_execution`: append and keep the last 100. -/
def addExecution (bk : Book) (e : ExecRec) : Book :=
  let el := bk.executions ++ [e]
  { bk with executions := if 100 < el.length then el.drop (el.length - 100) else el }

/-- One recorded match: the two order objects are represented by their ids
(reports later re-read the live objects), plus `match_qty`/`match_price`. -/
structure MatchRec where
  buyId : List Char
  sellId : List Char
  qty : Int
  px : ℚ
deriving DecidableEq

/-- `buy_order.filled_qty += q` followed by the status update
`"2" if is_complete else "1"`. -/
def fillO (o : Order) (q : Int) : Order :=
  let f := o.filled_qty + q
  { o with filled_qty := f, status := if o.order_qty ≤ f then str "2" else str "1" }

/-- One iteration of the `while` loop of `match_orders`: skip completed
orders, test crossing and compute the match price, apply the fills, record
the execution, advance the indices, and stop (`none`) on a failed crossing
test or on the neither-complete safety break. -/
def matchIter (bk : Book) (bids asks : List (List Char)) (bi si : Nat) :
    Book × List MatchRec × Option (Nat × Nat) :=
  let b := ordOf bk.orders (bids.getD bi [])
  let s := ordOf bk.orders (asks.getD si [])
  if b.isComplete then (bk, [], some (bi + 1, si))
  else if s.isComplete then (bk, [], some (bi, si + 1))
  else
    let pm : Option ℚ :=
      if b.order_type = some (str "1") then some (truthyD s.price 100)
      else if s.order_type = some (str "1") then some (truthyD b.price 100)
      else
        match b.price, s.price with
        | some pb, some ps =>
          if pb ≠ 0 ∧ ps ≠ 0 ∧ ps ≤ pb then some ps else none
        | _, _ => none
    match pm with
    | none => (bk, [], none)
    | some px =>
      let q := min b.remaining s.remaining
      let b1 := fillO b q
      let s1 := fillO s q
      let bk1 := addExecution
        { bk with orders := setOrder (setOrder bk.orders b1) s1 }
        ⟨b.symbol, q, px, b1.isComplete⟩
      let r : MatchRec := ⟨b.order_id, s.order_id, q, px⟩
      if ¬ b1.isComplete ∧ ¬ s1.isComplete then (bk1, [r], none)
      else
        (bk1, [r], some ((if b1.isComplete then bi + 1 else bi),
                         (if s1.isComplete then si + 1 else si)))

/-- The matching loop; the fuel is the remaining iteration budget
(`max_iterations = 100`, each pass of the `while` body — skips included —
consumes one unit). -/
def matchLoop : Nat → Book → List (List Char) → List (List Char) → Nat → Nat →
    Book × List MatchRec
  | 0, bk, _, _, _, _ => (bk, [])
  | fuel + 1, bk, bids, asks, bi, si =>
    if bi < bids.length ∧ si < asks.length then
      match matchIter bk bids asks bi si with
      | (bk1, recs, none) => (bk1, recs)
      | (bk1, recs, some (bi1, si1)) =>
        let r := matchLoop fuel bk1 bids asks bi1 si1
        (r.1, recs ++ r.2)
    else (bk, [])

/-- `OrderBook.match_orders`: snapshot the non-complete orders of both sides,
sort them once by price-time priority, then run the bounded loop.  (With the
total-function queue model, the source's early `symbol not in self.buy_orders`
return and its empty-filtered-list return both collapse into the emptiness
test below; each returns no matches and leaves the book unchanged.) -/
def matchOrders (bk : Book) (sym : List Char) : Book × List MatchRec :=
  let bids0 := (bk.buyQ sym).filter (fun i => ¬ (ordOf bk.orders i).isComplete)
  let asks0 := (bk.sellQ sym).filter (fun i => ¬ (ordOf bk.orders i).isComplete)
  if bids0 = [] ∨ asks0 = [] then (bk, [])
  else
    matchLoop 100 bk (pySort (matchBuyLe bk.orders) bids0)
      (pySort (matchSellLe bk.orders) asks0) 0 0

/-! ## Server dispatch layer -/

/-- `ExchangeServer.VALID_SYMBOLS`. -/
def VALID_SYMBOLS : List (List Char) :=
  [str "AAPL", str "GOOGL", str "MSFT", str "AMZN", str "TSLA"]

/-- ASCII decimal digit test. -/
def isDigitC (c : Char) : Bool := 48 ≤ c.toNat && c.toNat ≤ 57

/-- Value of a nonempty all-digit string. -/
def digitsVal (cs : List Char) : Option Nat :=
  if cs ≠ [] ∧ cs.all isDigitC then some (natVal cs) else none

/-- Python `int(s)` on plain decimal literals (optional sign, digits);
other inputs raise `ValueError`, modelled as `none`. -/
def pyInt (cs : List Char) : Option Int :=
  match cs with
  | '-' :: rest => (digitsVal rest).map (fun n => -(n : Int))
  | '+' :: rest => (digitsVal rest).map (fun n => (n : Int))
  | _ => (digitsVal cs).map (fun n => (n : Int))

/-- Python `float(s)` on plain decimal literals `[-+]?d*(.d*)?` with at
least one digit; other forms (exponents, `inf`, `nan`) are outside the
model and map to `none` like a `ValueError`. -/
def pyFloatCore (cs : List Char) : Option ℚ :=
  match splitChar '.' cs with
  | [a] => (digitsVal a).map (fun n => (n : ℚ))
  | [a, b] =>
    if (a ≠ [] ∨ b ≠ []) ∧ a.all isDigitC ∧ b.all isDigitC then
      some (Rat.divInt (natVal (a ++ b)) ((10 : Int) ^ b.length))
    else none
  | _ => none

/-- Python `float(s)` with the optional sign. -/
def pyFloat (cs : List Char) : Option ℚ :=
  match cs with
  | '-' :: rest => (pyFloatCore rest).map (fun q => -q)
  | '+' :: rest => pyFloatCore rest
  | _ => pyFloatCore cs

/-- `f"{x:.2f}"`: round half-to-even at two decimal places and render with
exactly two decimals.  (CPython formats the binary double; on the
decimal-exact prices this server handles the two agree.) -/
def fmt2 (q : ℚ) : List Char :=
  let a := q.num.natAbs * 100
  let d := q.den
  let e :=
    if 2 * (a % d) < d then a / d
    else if d < 2 * (a % d) then a / d + 1
    else if a / d % 2 = 0 then a / d else a / d + 1
  (if q.num < 0 then ['-'] else []) ++ natChars (e / 100) ++ '.' :: padZ 2 (natChars (e % 100))

/-- Smallest `k ≤ 30` with `den ∣ 10^k`, if any. -/
def decExp (den : Nat) : Option Nat :=
  (List.range 31).find? (fun k => 10 ^ k % den = 0)

/-- Strip trailing zeros but keep at least one digit (fraction rendering). -/
def stripZeros (cs : List Char) : List Char :=
  match (cs.reverse.dropWhile (fun c => c = '0')) with
  | [] => ['0']
  | r => r.reverse

/-- Python `f"{x}"` / `repr` of a float, for values with an exact decimal
expansion (any value this server produces); non-decimal rationals fall back
to a `num/den` rendering that no reachable path produces. -/
def floatRepr (q : ℚ) : List Char :=
  let sign : List Char := if q.num < 0 then ['-'] else []
  match decExp q.den with
  | some k =>
    let m := q.num.natAbs * 10 ^ k / q.den
    sign ++ natChars (m / 10 ^ k) ++ '.' :: stripZeros (padZ k (natChars (m % 10 ^ k)))
  | none => sign ++ natChars q.num.natAbs ++ '/' :: natChars q.den

/-- Rendering of a Python dict value inside an f-string: `None` prints as
`"None"`. -/
def optStr (v : Option (List Char)) : List Char :=
  match v with
  | none => str "None"
  | some s => s

/-- `ExchangeServer.build_fix_message`: body of `35`, the fixed header tags
`49=EXCHANGE`, `56=CLIENT`, `34=1`, `52=<utcnow>`, then the custom tags,
wrapped in `8`/`9` and the checksum trailer. -/
def buildFixSrv (mt : List Char) (tags : List (List Char × List Char)) (utc : List Char) :
    List Char :=
  let body := renderFields ([(str "35", mt), (str "49", str "EXCHANGE"),
    (str "56", str "CLIENT"), (str "34", str "1"), (str "52", utc)] ++ tags)
  let wo := renderFields [(str "8", str "FIX.4.2"), (str "9", natChars body.length)] ++ body
  wo ++ str "10=" ++ padZ 3 (natChars (chksum wo)) ++ [SOHc]

/-- `ExchangeServer.parse_fix_message` — the same split/parse algorithm as
`FIXEngine.parse_message`. -/
def parseFixMsg (msg : List Char) : List Char → Option (List Char) := parseMessage msg

/-- The tag list of `_create_execution_report`. -/
def execReportTags (o : Order) (eid et os : List Char) (lastQty : Int) (lastPx : ℚ)
    (utc : List Char) : List (List Char × List Char) :=
  [(str "37", o.order_id), (str "11", optStr o.cl_ord_id), (str "17", eid),
   (str "150", et), (str "39", os), (str "55", o.symbol), (str "54", optStr o.side),
   (str "38", intChars o.order_qty), (str "32", intChars lastQty), (str "31", fmt2 lastPx),
   (str "14", intChars o.filled_qty), (str "6", fmt2 lastPx), (str "60", utc)]

/-- `ExchangeServer._create_execution_report`: draws an exec id (advancing
the counter) and builds the report. -/
def createExecutionReport (bk : Book) (o : Order) (et os : List Char) (lastQty : Int)
    (lastPx : ℚ) (utc : List Char) : List Char × Book :=
  let eid := mkExecId bk.execCounter
  (buildFixSrv (str "8") (execReportTags o eid et os lastQty lastPx utc) utc,
   { bk with execCounter := bk.execCounter + 1 })

/-- The tag list of `_create_reject_execution_report`. -/
def rejectReportTags (cl symbol side : Option (List Char)) (qty : Int)
    (oid eid reason utc : List Char) : List (List Char × List Char) :=
  [(str "37", oid), (str "11", optStr cl), (str "17", eid), (str "150", str "8"),
   (str "39", str "8"), (str "55", optStr symbol), (str "54", optStr side),
   (str "38", intChars qty), (str "32", str "0"), (str "31", str "0.00"),
   (str "14", str "0"), (str "6", str "0.00"), (str "58", reason), (str "60", utc)]

/-- `ExchangeServer._create_reject_execution_report`: draws an exec id, then
a fresh order id (both counters advance), never touching the books. -/
def createRejectExecutionReport (bk : Book) (cl symbol side : Option (List Char))
    (qty : Int) (reason utc : List Char) : List Char × Book :=
  let eid := mkExecId bk.execCounter
  let oid := mkOrderId bk.orderCounter
  (buildFixSrv (str "8") (rejectReportTags cl symbol side qty oid eid reason utc) utc,
   { bk with execCounter := bk.execCounter + 1, orderCounter := bk.orderCounter + 1 })

/-- The accepting tail of `handle_new_order`: generate the order id, create
the `status="0"` order, `add_order` it, emit the New acknowledgement, run
`match_orders`, then for every match build both sides' reports (each drawing
an exec id) and append to the response only those whose `cl_ord_id` equals
the incoming one. -/
def newOrderAccept (bk : Book) (cl : Option (List Char)) (sv : List Char)
    (side : Option (List Char)) (qty : Int) (otype : Option (List Char))
    (price : Option ℚ) (now : ℚ) (utc : List Char) : List Char × Book :=
  let oid := mkOrderId bk.orderCounter
  let bk1 := { bk with orderCounter := bk.orderCounter + 1 }
  let o : Order := ⟨oid, cl, sv, side, qty, otype, price, 0, str "0", now⟩
  let bk2 := addOrder bk1 o
  let ack := createExecutionReport bk2 o (str "0") (str "0") 0 0 utc
  let matched := matchOrders ack.2 sv
  matched.2.foldl
    (fun acc m =>
      let bo := ordOf acc.2.orders m.buyId
      let bRep := createExecutionReport acc.2 bo
        (if bo.isComplete then str "2" else str "1") bo.status m.qty m.px utc
      let so := ordOf bRep.2.orders m.sellId
      let sRep := createExecutionReport bRep.2 so
        (if so.isComplete then str "2" else str "1") so.status m.qty m.px utc
      let r1 := if bo.cl_ord_id = cl then acc.1 ++ bRep.1 else acc.1
      let r2 := if so.cl_ord_id = cl then r1 ++ sRep.1 else r1
      (r2, sRep.2))
    (ack.1, matched.1)

/-- `ExchangeServer.handle_new_order`.  The result is `none` when the Python
code would raise before mutating anything (`int(...)`/`float(...)` on a
malformed value), which kills only the session.  A missing tag 55 compares
`None not in VALID_SYMBOLS`, which is true, hence the symbol reject. -/
def handleNewOrder (tags : List Char → Option (List Char)) (now : ℚ) (utc : List Char)
    (bk : Book) : Option (List Char × Book) :=
  let cl := tags (str "11")
  let symbol := tags (str "55")
  let side := tags (str "54")
  match pyInt (dictGetD tags (str "38") (str "0")) with
  | none => none
  | some qty =>
    let otype := tags (str "40")
    match (match tags (str "44") with
           | none => some none
           | some v => (pyFloat v).map some) with
    | none => none
    | some price =>
      match symbol with
      | none =>
        some (createRejectExecutionReport bk cl symbol side qty
          (str "Invalid symbol: " ++ optStr symbol) utc)
      | some sv =>
        if sv ∉ VALID_SYMBOLS then
          some (createRejectExecutionReport bk cl symbol side qty
            (str "Invalid symbol: " ++ optStr symbol) utc)
        else if (match price with | some p => decide (p ≤ 0) | none => false) then
          some (createRejectExecutionReport bk cl symbol side qty
            (str "Invalid price: " ++ floatRepr ((price.getD 0))) utc)
        else if qty ≤ 0 then
          some (createRejectExecutionReport bk cl symbol side qty
            (str "Invalid quantity: " ++ intChars qty) utc)
        else
          some (newOrderAccept bk cl sv side qty otype price now utc)

/-- `ExchangeServer.handle_cancel_request`: find the first order (dict
insertion order) whose `cl_ord_id` equals tag 41 (`None == None` matches an
order whose client id is missing); unknown targets get the cancel reject,
known ones are cancelled — with no terminal-state check — and acknowledged
with a `150=4`, `39=4` report built from the (now mutated) object. -/
def handleCancelRequest (tags : List Char → Option (List Char)) (utc : List Char)
    (bk : Book) : List Char × Book :=
  let orig := tags (str "41")
  match bk.orders.find? (fun o => o.cl_ord_id = orig) with
  | none =>
    (buildFixSrv (str "8")
      [(str "11", optStr (tags (str "11"))), (str "41", optStr orig),
       (str "39", str "8"), (str "58", str "Order not found")] utc, bk)
  | some o =>
    let bk1 := (cancelOrder bk o.order_id).2
    createExecutionReport bk1 (ordOf bk1.orders o.order_id) (str "4") (str "4") 0 0 utc

/-- Server state: one shared book plus the `sessions` map (a set of logged-in
session ids — the stored value is always `True`). -/
structure ServerState where
  book : Book
  sessions : List (List Char)

/-- `ExchangeServer.handle_logon`: record the session, echo tag 108 (default
`"30"`). -/
def handleLogon (tags : List Char → Option (List Char)) (sid utc : List Char)
    (st : ServerState) : List Char × ServerState :=
  let ss := if sid ∈ st.sessions then st.sessions else st.sessions ++ [sid]
  (buildFixSrv (str "A") [(str "108", dictGetD tags (str "108") (str "30"))] utc,
   { st with sessions := ss })

/-- `ExchangeServer.handle_heartbeat`: echo tag 112 when present. -/
def handleHeartbeat (tags : List Char → Option (List Char)) (utc : List Char) : List Char :=
  buildFixSrv (str "0")
    (match tags (str "112") with
     | some v => [(str "112", v)]
     | none => []) utc

/-- `ExchangeServer.handle_logout`: drop the session. -/
def handleLogout (sid utc : List Char) (st : ServerState) : List Char × ServerState :=
  (buildFixSrv (str "5") [] utc, { st with sessions := st.sessions.erase sid })

/-- The dispatch of `process_message` on the parsed tag map: note that no
checksum validation and no session-state check guards any branch; an
unknown (or missing) tag 35 is logged and answered with `None`. -/
def processTags (tags : List Char → Option (List Char)) (sid : List Char) (now : ℚ)
    (utc : List Char) (st : ServerState) : Option (Option (List Char) × ServerState) :=
  let mt := tags (str "35")
  if mt = some (str "A") then
    let r := handleLogon tags sid utc st
    some (some r.1, r.2)
  else if mt = some (str "0") then
    some (some (handleHeartbeat tags utc), st)
  else if mt = some (str "5") then
    let r := handleLogout sid utc st
    some (some r.1, r.2)
  else if mt = some (str "D") then
    (handleNewOrder tags now utc st.book).map
      (fun rb => (some rb.1, { st with book := rb.2 }))
  else if mt = some (str "F") then
    let r := handleCancelRequest tags utc st.book
    some (some r.1, { st with book := r.2 })
  else
    some (none, st)

/-- `ExchangeServer.process_message`: parse, then dispatch on tag 35.  The
outer `none` marks an uncaught exception (possible only inside
`handle_new_order`'s numeric parsing), which terminates the session without
touching the state. -/
def processMessage (msg sid : List Char) (now : ℚ) (utc : List Char) (st : ServerState) :
    Option (Option (List Char) × ServerState) :=
  processTags (parseFixMsg msg) sid now utc st

/-- One inbound framed message together with the ambient wall clock. -/
structure OpIn where
  msg : List Char
  sid : List Char
  now : ℚ
  utc : List Char

/-- Effect of one message on the server state (an exception leaves the
state as it was and only kills the connection). -/
def stepOp (st : ServerState) (i : OpIn) : ServerState :=
  match processMessage i.msg i.sid i.now i.utc st with
  | none => st
  | some r => r.2

/-- A whole inbound message sequence. -/
def runOps (ops : List OpIn) (st : ServerState) : ServerState :=
  ops.foldl stepOp st

/-- The freshly constructed server: empty book, both counters at 1, no
sessions. -/
def initState : ServerState :=
  ⟨⟨[], fun _ => [], fun _ => [], 1, 1, []⟩, []⟩

/-! ## Lemmas about the splitting and rendering primitives -/

theorem splitChar_ne_nil (sep : Char) (s : List Char) : splitChar sep s ≠ [] := by
  cases s with
  | nil => simp [splitChar]
  | cons c cs =>
    simp only [splitChar]
    split
    · simp
    · cases h : splitChar sep cs <;> simp

theorem splitChar_append_cons (sep : Char) (xs ys : List Char) (hx : sep ∉ xs) :
    splitChar sep (xs ++ sep :: ys) = xs :: splitChar sep ys := by
  induction xs with
  | nil => simp [splitChar]
  | cons c cs ih =>
    have hc : c ≠ sep := fun h => hx (by simp [h])
    have hcs : sep ∉ cs := fun h => hx (by simp [h])
    simp only [List.cons_append, splitChar, if_neg hc, List.append_eq, ih hcs]

theorem splitFirst_append (sep : Char) (t v : List Char) (ht : sep ∉ t) :
    splitFirst sep (t ++ sep :: v) = (t, v) := by
  induction t with
  | nil => simp [splitFirst]
  | cons c cs ih =>
    have hc : c ≠ sep := fun h => ht (by simp [h])
    have hcs : sep ∉ cs := fun h => ht (by simp [h])
    simp only [List.cons_append, splitFirst, if_neg hc, List.append_eq, ih hcs]

theorem renderFields_cons (tv : List Char × List Char) (ps : List (List Char × List Char)) :
    renderFields (tv :: ps) = (tv.1 ++ '=' :: tv.2 ++ [SOHc]) ++ renderFields ps := by
  simp [renderFields]

theorem renderFields_append (ps qs : List (List Char × List Char)) :
    renderFields (ps ++ qs) = renderFields ps ++ renderFields qs := by
  simp [renderFields]

/-- Well-formed field list: SOH-free numeric-style tags and SOH-free values. -/
def WfFields (ps : List (List Char × List Char)) : Prop :=
  ∀ p ∈ ps, (SOHc ∉ p.1 ∧ '=' ∉ p.1) ∧ SOHc ∉ p.2

theorem splitChar_renderFields (ps : List (List Char × List Char)) (h : WfFields ps) :
    splitChar SOHc (renderFields ps) = ps.map (fun tv => tv.1 ++ '=' :: tv.2) ++ [[]] := by
  induction ps with
  | nil => simp [renderFields, splitChar]
  | cons tv ps ih =>
    have htv := h tv (by simp)
    have hsep : SOHc ∉ tv.1 ++ '=' :: tv.2 := by
      intro hm
      rcases List.mem_append.1 hm with h1 | h1
      · exact htv.1.1 h1
      · rcases List.mem_cons.1 h1 with h2 | h2
        · exact absurd h2.symm (by decide)
        · exact htv.2 h2
    have hrest : WfFields ps := fun p hp => h p (by simp [hp])
    rw [renderFields_cons]
    have : (tv.1 ++ '=' :: tv.2 ++ [SOHc]) ++ renderFields ps
        = (tv.1 ++ '=' :: tv.2) ++ SOHc :: renderFields ps := by simp
    rw [this, splitChar_append_cons _ _ _ hsep, ih hrest]
    simp

theorem filterMap_parse_fields (ps : List (List Char × List Char)) (h : WfFields ps) :
    List.filterMap
      ((fun f => if '=' ∈ f then some (splitFirst '=' f) else none)
        ∘ (fun tv : List Char × List Char => tv.1 ++ '=' :: tv.2)) ps = ps := by
  induction ps with
  | nil => simp
  | cons tv ps ih =>
    have htv := h tv (by simp)
    have hrest : WfFields ps := fun p hp => h p (by simp [hp])
    have hm : '=' ∈ tv.1 ++ '=' :: tv.2 := by simp
    simp only [List.filterMap_cons, Function.comp_apply, if_pos hm,
      splitFirst_append '=' tv.1 tv.2 htv.1.2, ih hrest]

theorem parseMessage_renderFields (ps : List (List Char × List Char)) (h : WfFields ps) :
    parseMessage (renderFields ps) = dictOf ps := by
  unfold parseMessage
  rw [splitChar_renderFields ps h]
  rw [List.filterMap_append]
  have h2 : List.filterMap
      (fun f => if '=' ∈ f then some (splitFirst '=' f) else none) [[]]
      = [] := by simp
  rw [h2, List.append_nil, List.filterMap_map, filterMap_parse_fields ps h]

/-! ## Digit-rendering lemmas -/

theorem digitChar_toNat (n : Nat) (h : n < 10) : (digitChar n).toNat = 48 + n := by
  interval_cases n <;> decide

theorem natCharsF_digits (f n : Nat) :
    ∀ c ∈ natCharsF f n, 48 ≤ c.toNat ∧ c.toNat ≤ 57 := by
  induction f generalizing n with
  | zero => simp [natCharsF]
  | succ f ih =>
    intro c hc
    simp only [natCharsF] at hc
    split at hc
    · rename_i hn
      simp only [List.mem_singleton] at hc
      subst hc
      rw [digitChar_toNat n hn]
      omega
    · rcases List.mem_append.1 hc with h1 | h1
      · exact ih _ c h1
      · simp only [List.mem_singleton] at h1
        subst h1
        rw [digitChar_toNat _ (Nat.mod_lt n (by omega))]
        omega

theorem natChars_digits (n : Nat) : ∀ c ∈ natChars n, 48 ≤ c.toNat ∧ c.toNat ≤ 57 :=
  natCharsF_digits (n + 1) n

theorem natCharsF_fuel_irrel (n : Nat) : ∀ f g, 0 < f → 0 < g →
    n < 10 ^ f → n < 10 ^ g → natCharsF f n = natCharsF g n := by
  induction n using Nat.strong_induction_on with
  | _ n ih =>
    intro f g hf hg hnf hng
    obtain ⟨f1, rfl⟩ : ∃ f1, f = f1 + 1 := ⟨f - 1, by omega⟩
    obtain ⟨g1, rfl⟩ : ∃ g1, g = g1 + 1 := ⟨g - 1, by omega⟩
    by_cases h10 : n < 10
    · simp [natCharsF, h10]
    · have hf1 : 0 < f1 := by
        rcases Nat.eq_zero_or_pos f1 with h | h
        · subst h; simp at hnf; omega
        · exact h
      have hg1 : 0 < g1 := by
        rcases Nat.eq_zero_or_pos g1 with h | h
        · subst h; simp at hng; omega
        · exact h
      have hdf : n / 10 < 10 ^ f1 := by
        rw [Nat.div_lt_iff_lt_mul (by omega)]
        calc n < 10 ^ (f1 + 1) := hnf
        _ = 10 ^ f1 * 10 := by ring
      have hdg : n / 10 < 10 ^ g1 := by
        rw [Nat.div_lt_iff_lt_mul (by omega)]
        calc n < 10 ^ (g1 + 1) := hng
        _ = 10 ^ g1 * 10 := by ring
      have hlt : n / 10 < n := Nat.div_lt_self (by omega) (by omega)
      simp only [natCharsF, if_neg h10]
      rw [ih (n / 10) hlt f1 g1 hf1 hg1 hdf hdg]

theorem natChars_eq_fuel (n f : Nat) (hf : 0 < f) (hn : n < 10 ^ f) :
    natChars n = natCharsF f n := by
  unfold natChars
  have h1 : n < 10 ^ n := Nat.lt_pow_self (by omega) n
  have h2 : (10:Nat) ^ n ≤ 10 ^ (n + 1) := Nat.pow_le_pow_right (by omega) (by omega)
  exact natCharsF_fuel_irrel n (n + 1) f (by omega) hf (by omega) hn

theorem natCharsF_length (f n : Nat) : (natCharsF f n).length ≤ f := by
  induction f generalizing n with
  | zero => simp [natCharsF]
  | succ f ih =>
    simp only [natCharsF]
    split
    · simp
    · simp only [List.length_append, List.length_singleton]
      have := ih (n / 10)
      omega

theorem natChars_length_le (n f : Nat) (hf : 0 < f) (hn : n < 10 ^ f) :
    (natChars n).length ≤ f := by
  rw [natChars_eq_fuel n f hf hn]
  exact natCharsF_length f n

theorem splitChar_no_sep (sep : Char) (s : List Char) (h : sep ∉ s) :
    splitChar sep s = [s] := by
  induction s with
  | nil => simp [splitChar]
  | cons c cs ih =>
    have hc : c ≠ sep := fun hh => h (by simp [hh])
    have hcs : sep ∉ cs := fun hh => h (by simp [hh])
    simp only [splitChar, if_neg hc, ih hcs]

theorem SOHc_not_mem_natChars (n : Nat) : SOHc ∉ natChars n := by
  intro h
  have := natChars_digits n SOHc h
  simp [SOHc] at this

theorem SOHc_not_mem_padZ_natChars (w n : Nat) : SOHc ∉ padZ w (natChars n) := by
  intro h
  rcases List.mem_append.1 h with h1 | h1
  · have := List.eq_of_mem_replicate h1
    simp [SOHc] at this
  · exact SOHc_not_mem_natChars n h1

theorem buildMessage_eq_renderFields (mt sender target : List Char) (seq : Nat)
    (ts : List Char) (body : List (List Char × List Char)) :
    buildMessage mt sender target seq ts body
      = renderFields (engineMsgFields mt sender target seq ts body) := by
  unfold buildMessage engineMsgFields
  simp only [renderFields_append, renderFields_cons, renderFields]
  simp [str]

theorem padZ3_shape (c : Nat) (hc : c < 1000) :
    ∃ d1 d2 d3 : Char, padZ 3 (natChars c) = [d1, d2, d3]
      ∧ (48 ≤ d1.toNat ∧ d1.toNat ≤ 57) ∧ (48 ≤ d2.toNat ∧ d2.toNat ≤ 57)
      ∧ (48 ≤ d3.toNat ∧ d3.toNat ≤ 57) := by
  have hlen : (natChars c).length ≤ 3 := by
    have : (1000:Nat) = 10 ^ 3 := by norm_num
    exact natChars_length_le c 3 (by omega) (by omega)
  have hdig : ∀ x ∈ padZ 3 (natChars c), 48 ≤ x.toNat ∧ x.toNat ≤ 57 := by
    intro x hx
    rcases List.mem_append.1 hx with h1 | h1
    · have := List.eq_of_mem_replicate h1
      subst this
      decide
    · exact natChars_digits c x h1
  have hplen : (padZ 3 (natChars c)).length = 3 := by
    simp only [padZ, List.length_append, List.length_replicate]
    omega
  match hshape : padZ 3 (natChars c) with
  | [d1, d2, d3] =>
    refine ⟨d1, d2, d3, rfl, ?_, ?_, ?_⟩
    · exact hdig d1 (by rw [hshape]; simp)
    · exact hdig d2 (by rw [hshape]; simp)
    · exact hdig d3 (by rw [hshape]; simp)
  | [] => rw [hshape] at hplen; simp at hplen
  | [_] => rw [hshape] at hplen; simp at hplen
  | [_, _] => rw [hshape] at hplen; simp at hplen
  | _ :: _ :: _ :: _ :: _ => rw [hshape] at hplen; simp at hplen

theorem rfindP_spec (pat s : List Char) (P : Nat) (hP : P ≤ s.length)
    (hpre : pat.isPrefixOf (s.drop P) = true)
    (hno : ∀ j, P < j → j ≤ s.length → ¬ (pat.isPrefixOf (s.drop j) = true)) :
    rfindP pat s = some P := by
  unfold rfindP
  have hsplit : s.length + 1 = (P + 1) + (s.length - P) := by omega
  rw [hsplit, List.range_add]
  rw [List.filter_append]
  have hright : List.filter (fun i => pat.isPrefixOf (s.drop i))
      (List.map (fun x => P + 1 + x) (List.range (s.length - P))) = [] := by
    rw [List.filter_eq_nil_iff]
    intro a ha
    rcases List.mem_map.1 ha with ⟨x, hx, rfl⟩
    have hxlt := List.mem_range.1 hx
    exact fun hcon => hno (P + 1 + x) (by omega) (by omega) hcon
  rw [hright, List.append_nil, List.range_succ, List.filter_append]
  have hPfilter : List.filter (fun i => pat.isPrefixOf (s.drop i)) [P] = [P] := by
    simp [hpre]
  rw [hPfilter, List.getLast?_append]
  simp

theorem digit_ne_eqChar (c : Char) (h : c.toNat ≤ 57) : c ≠ '=' := by
  intro he
  rw [he] at h
  exact absurd h (by decide)

theorem digit_ne_SOH (c : Char) (h : 48 ≤ c.toNat) : c ≠ SOHc := by
  intro he
  rw [he] at h
  exact absurd h (by decide)

theorem validateChecksum_of_trailer (W : List Char) :
    validateChecksum (W ++ str "10=" ++ padZ 3 (natChars (chksum W)) ++ [SOHc]) = true := by
  have hC : chksum W < 1000 := by
    have : chksum W < 256 := Nat.mod_lt _ (by omega)
    omega
  obtain ⟨d1, d2, d3, hshape, hd1, hd2, hd3⟩ := padZ3_shape (chksum W) hC
  have hmsg : W ++ str "10=" ++ padZ 3 (natChars (chksum W)) ++ [SOHc]
      = W ++ ('1' :: '0' :: '=' :: d1 :: d2 :: d3 :: [SOHc]) := by
    rw [hshape]; simp [str]
  set suf : List Char := '1' :: '0' :: '=' :: d1 :: d2 :: d3 :: [SOHc] with hsuf
  have hlen : (W ++ suf).length = W.length + 7 := by simp [hsuf]
  have hdropP : (W ++ suf).drop W.length = suf := List.drop_left W suf
  have hdropk : ∀ k, (W ++ suf).drop (W.length + k) = suf.drop k := by
    intro k
    rw [List.drop_append_eq_append_drop]
    have h1 : W.drop (W.length + k) = [] := List.drop_eq_nil_of_le (by omega)
    have h2 : W.length + k - W.length = k := by omega
    rw [h1, h2, List.nil_append]
  have hfound : rfindP (str "10=") (W ++ suf) = some W.length := by
    apply rfindP_spec
    · omega
    · rw [hdropP, hsuf]
      simp [str, List.isPrefixOf]
    · intro j hj1 hj2
      rw [hlen] at hj2
      obtain ⟨k, rfl, hk1, hk7⟩ : ∃ k, j = W.length + k ∧ 1 ≤ k ∧ k ≤ 7 :=
        ⟨j - W.length, by omega, by omega, by omega⟩
      rw [hdropk k]
      interval_cases k
      · simp [hsuf, str, List.isPrefixOf]
      · simp [hsuf, str, List.isPrefixOf]
      · simp [hsuf, str, List.isPrefixOf]
        intro h1 h2 h3
        exact absurd h3.symm (digit_ne_eqChar d3 hd3.2)
      · simp [hsuf, str, List.isPrefixOf, SOHc]
      · simp [hsuf, str, List.isPrefixOf]
      · simp [hsuf, str, List.isPrefixOf, SOHc]
      · simp [hsuf, str, List.isPrefixOf]
  have hSOHmem : SOHc ∉ ['1', '0', '=', d1, d2, d3] := by
    simp only [List.mem_cons, List.not_mem_nil, or_false]
    push_neg
    exact ⟨by decide, by decide, by decide,
      (digit_ne_SOH d1 hd1.1).symm, (digit_ne_SOH d2 hd2.1).symm,
      (digit_ne_SOH d3 hd3.1).symm⟩
  rw [hmsg]
  unfold validateChecksum
  rw [hfound]
  have htake : (W ++ suf).take W.length = W := List.take_left W suf
  have hsplit1 : splitChar SOHc suf = [['1', '0', '=', d1, d2, d3], []] := by
    have h0 : suf = ['1', '0', '=', d1, d2, d3] ++ SOHc :: [] := by simp [hsuf]
    rw [h0, splitChar_append_cons _ _ _ hSOHmem]
    simp [splitChar]
  have hsplit2 : splitChar '=' ['1', '0', '=', d1, d2, d3] = [['1', '0'], [d1, d2, d3]] := by
    have h1 : ['1', '0', '=', d1, d2, d3] = ['1', '0'] ++ '=' :: [d1, d2, d3] := by simp
    have h2 : '=' ∉ [d1, d2, d3] := by
      simp only [List.mem_cons, List.not_mem_nil, or_false]
      push_neg
      exact ⟨(digit_ne_eqChar d1 hd1.2).symm, (digit_ne_eqChar d2 hd2.2).symm,
        (digit_ne_eqChar d3 hd3.2).symm⟩
    rw [h1, splitChar_append_cons _ _ _ (by decide), splitChar_no_sep _ _ h2]
  simp only [htake, hdropP, hsplit1, List.headI, hsplit2]
  simp [hshape]

/-! ## Claim C7 -/

/-- C7: Codec round-trip.  For every message built by
`FIXEngine._build_message` from a message type and body tag-value pairs
(numeric-style tags — no SOH, no `=` — and SOH-free values, as all FIX
tags and values are), `parse_message` of the encoded bytes returns exactly
the tag map of the message's field sequence — in particular it agrees with
the message on every tag present in it — and `validate_checksum` of the
encoded bytes returns `True`. -/
theorem C7_codec_roundtrip
    (mt sender target ts : List Char) (seq : Nat) (body : List (List Char × List Char))
    (hmt : SOHc ∉ mt) (hsender : SOHc ∉ sender) (htarget : SOHc ∉ target) (hts : SOHc ∉ ts)
    (hbody : WfFields body) :
    (∀ k, parseMessage (buildMessage mt sender target seq ts body) k
        = dictOf (engineMsgFields mt sender target seq ts body) k)
    ∧ validateChecksum (buildMessage mt sender target seq ts body) = true := by
  constructor
  · intro k
    have hwf : WfFields (engineMsgFields mt sender target seq ts body) := by
      intro p hp
      unfold engineMsgFields at hp
      simp only [List.mem_append, List.mem_cons, List.not_mem_nil, or_false] at hp
      rcases hp with ((rfl | rfl | rfl | rfl | rfl | rfl | rfl) | hb) | rfl <;> try dsimp only
      · exact ⟨⟨by decide, by decide⟩, by decide⟩
      · exact ⟨⟨by decide, by decide⟩, SOHc_not_mem_natChars _⟩
      · exact ⟨⟨by decide, by decide⟩, hmt⟩
      · exact ⟨⟨by decide, by decide⟩, hsender⟩
      · exact ⟨⟨by decide, by decide⟩, htarget⟩
      · exact ⟨⟨by decide, by decide⟩, SOHc_not_mem_natChars _⟩
      · exact ⟨⟨by decide, by decide⟩, hts⟩
      · exact hbody p hb
      · exact ⟨⟨by decide, by decide⟩, SOHc_not_mem_padZ_natChars _ _⟩
    rw [buildMessage_eq_renderFields, parseMessage_renderFields _ hwf]
  · exact validateChecksum_of_trailer _

/-- Witness for C7: a concrete Logon message round-trips (its tag 108 is
recovered by the parser) and its checksum validates. -/
theorem C7_codec_roundtrip_witness :
    (SOHc ∉ str "A") ∧ WfFields [(str "108", str "30")]
    ∧ parseMessage (buildMessage (str "A") (str "CLIENT") (str "EXCHANGE") 1
        (str "20240101-00:00:00") [(str "108", str "30")]) (str "108") = some (str "30")
    ∧ validateChecksum (buildMessage (str "A") (str "CLIENT") (str "EXCHANGE") 1
        (str "20240101-00:00:00") [(str "108", str "30")]) = true := by
  have h := C7_codec_roundtrip (str "A") (str "CLIENT") (str "EXCHANGE")
    (str "20240101-00:00:00") 1 [(str "108", str "30")]
    (by decide) (by decide) (by decide) (by decide)
    (by unfold WfFields; decide)
  set_option maxRecDepth 8000 in
  exact ⟨by decide, by unfold WfFields; decide, (h.1 (str "108")).trans (by decide), h.2⟩

/-! ## Claim C1 -/

/-- The tag-value field list extracted by the parser. -/
def msgFieldsOf (raw : List Char) : List (List Char × List Char) :=
  (splitChar SOHc raw).filterMap (fun f => if '=' ∈ f then some (splitFirst '=' f) else none)

theorem parseMessage_eq_dictOf (raw : List Char) :
    parseMessage raw = dictOf (msgFieldsOf raw) := rfl

theorem splitChar_append_boundary (sep : Char) (xs ys : List Char) :
    splitChar sep (xs ++ sep :: ys) = splitChar sep xs ++ splitChar sep ys := by
  induction xs with
  | nil => simp [splitChar]
  | cons c cs ih =>
    by_cases hc : c = sep
    · subst hc
      simp [splitChar, List.append_eq, ih]
    · simp only [List.cons_append, splitChar, if_neg hc, List.append_eq, ih]
      cases h : splitChar sep cs with
      | nil => exact absurd h (splitChar_ne_nil sep cs)
      | cons r rs => simp

theorem msgFieldsOf_append_boundary (xs ys : List Char) :
    msgFieldsOf (xs ++ SOHc :: ys) = msgFieldsOf xs ++ msgFieldsOf ys := by
  unfold msgFieldsOf
  rw [splitChar_append_boundary, List.filterMap_append]

theorem dictOf_foldl_apply (ps : List (List Char × List Char))
    (m0 : List Char → Option (List Char)) (k : List Char) :
    (ps.foldl dUpd m0) k = (dictOf ps k).or (m0 k) := by
  induction ps generalizing m0 with
  | nil => simp [dictOf]
  | cons tv ps ih =>
    rw [List.foldl_cons, ih (dUpd m0 tv)]
    have hR : dictOf (tv :: ps) k = (dictOf ps k).or (dUpd (fun _ => none) tv k) := by
      unfold dictOf
      rw [List.foldl_cons]
      exact ih _
    rw [hR]
    cases h : dictOf ps k with
    | some v => simp [Option.or]
    | none => by_cases hk : k = tv.1 <;> simp [Option.or, dUpd, hk]

theorem dictOf_append (A B : List (List Char × List Char)) (k : List Char) :
    dictOf (A ++ B) k = (dictOf B k).or (dictOf A k) := by
  unfold dictOf
  rw [List.foldl_append]
  exact dictOf_foldl_apply B _ k

/-- Parsing a message whose final field is the checksum `10=c`: tag `10`
reads `c` and every other tag reads as in the message without the trailer. -/
theorem parseFix_with_trailer (pre c : List Char)
    (hpre : pre = [] ∨ ∃ p', pre = p' ++ [SOHc]) (hc : SOHc ∉ c) (k : List Char) :
    parseFixMsg (pre ++ str "10=" ++ c ++ [SOHc]) k
      = if k = str "10" then some c else parseFixMsg pre k := by
  have htail : ∀ k', parseFixMsg (str "10=" ++ c ++ [SOHc]) k'
      = if k' = str "10" then some c else none := by
    intro k'
    have hsh : str "10=" ++ c ++ [SOHc] = (str "10" ++ '=' :: c) ++ SOHc :: [] := by
      simp [str]
    have hnm : SOHc ∉ str "10" ++ '=' :: c := by
      intro hmem
      rcases List.mem_append.1 hmem with h1 | h1
      · exact absurd h1 (by decide)
      · rcases List.mem_cons.1 h1 with h2 | h2
        · exact absurd h2 (by decide)
        · exact hc h2
    unfold parseFixMsg
    rw [parseMessage_eq_dictOf]
    unfold msgFieldsOf
    rw [hsh, splitChar_append_cons _ _ _ hnm]
    have hfm : '=' ∈ str "10" ++ '=' :: c := by simp
    simp only [List.filterMap_cons, if_pos hfm, splitFirst_append '=' (str "10") c (by decide),
      splitChar, List.filterMap_nil]
    simp [dictOf, dUpd]
  rcases hpre with rfl | ⟨p', rfl⟩
  · simp only [List.nil_append]
    rw [htail k]
    unfold parseFixMsg
    rw [parseMessage_eq_dictOf]
    simp [msgFieldsOf, splitChar, dictOf, dUpd]
  · have hsh : (p' ++ [SOHc]) ++ str "10=" ++ c ++ [SOHc]
        = p' ++ SOHc :: (str "10=" ++ c ++ [SOHc]) := by simp
    unfold parseFixMsg
    rw [parseMessage_eq_dictOf, parseMessage_eq_dictOf, hsh, msgFieldsOf_append_boundary,
      dictOf_append]
    have h2 : msgFieldsOf (p' ++ [SOHc]) = msgFieldsOf p' := by
      have : p' ++ [SOHc] = p' ++ SOHc :: [] := by simp
      rw [this, msgFieldsOf_append_boundary]
      simp [msgFieldsOf, splitChar]
    rw [h2]
    have h3 := htail k
    unfold parseFixMsg at h3
    rw [parseMessage_eq_dictOf] at h3
    rw [h3]
    by_cases hk : k = str "10" <;> simp [hk, Option.or]

theorem processTags_congr (f g : List Char → Option (List Char))
    (h : ∀ k, k ≠ str "10" → f k = g k) (sid : List Char) (now : ℚ) (utc : List Char)
    (st : ServerState) :
    processTags f sid now utc st = processTags g sid now utc st := by
  have h35 := h (str "35") (by decide)
  have h108 := h (str "108") (by decide)
  have h112 := h (str "112") (by decide)
  have h11 := h (str "11") (by decide)
  have h55 := h (str "55") (by decide)
  have h54 := h (str "54") (by decide)
  have h38 := h (str "38") (by decide)
  have h40 := h (str "40") (by decide)
  have h44 := h (str "44") (by decide)
  have h41 := h (str "41") (by decide)
  simp only [processTags, handleLogon, handleHeartbeat, handleLogout, handleNewOrder,
    handleCancelRequest, dictGetD, h35, h108, h112, h11, h55, h54, h38, h40, h44, h41]

/-- The valid-looking NewOrderSingle framing used in the C1 scenario, up to
(and excluding) the checksum field. -/
def C1pre : List Char :=
  str "8=FIX.4.2\x019=68\x0135=D\x0111=C1\x0155=AAPL\x0154=1\x0138=100\x0140=2\x0144=150\x01"

/-- The same message carrying the deliberately wrong checksum `10=999`. -/
def C1msg : List Char := C1pre ++ str "10=999" ++ [SOHc]

/-- Counterexample to C1: a framed NewOrderSingle whose tag-10 value `999`
differs from the sum of the preceding bytes mod 256, yet `process_message`
returns an ExecutionReport (`35=8`, `150=0`) for it and an order is admitted
into the book — the message is not dropped. -/
theorem C1_counterexample :
    padZ 3 (natChars (chksum C1pre)) ≠ str "999"
    ∧ ((processMessage C1msg (str "c") 1 (str "T") initState).map
        (fun r => (r.2.book.orders.length,
          r.1.map (fun resp => (parseMessage resp (str "35"), parseMessage resp (str "150"))))))
      = some (1, some (some (str "8"), some (str "0"))) := by
  set_option maxRecDepth 10000 in decide

/-- C1 amended: the server never validates checksums — the value of the
tag-10 field has no influence whatsoever on `process_message`: any two
messages that differ only in the checksum value are processed identically
(so a NewOrderSingle with a wrong checksum is admitted exactly like the
valid one, as `C1_counterexample` shows concretely). -/
theorem C1_checksum_never_validated (pre c c' : List Char)
    (hpre : pre = [] ∨ ∃ p', pre = p' ++ [SOHc]) (hc : SOHc ∉ c) (hc' : SOHc ∉ c')
    (sid : List Char) (now : ℚ) (utc : List Char) (st : ServerState) :
    processMessage (pre ++ str "10=" ++ c ++ [SOHc]) sid now utc st
      = processMessage (pre ++ str "10=" ++ c' ++ [SOHc]) sid now utc st := by
  unfold processMessage
  apply processTags_congr
  intro k hk
  rw [parseFix_with_trailer pre c hpre hc k, parseFix_with_trailer pre c' hpre hc' k]
  simp [hk]

/-- Witness for the amended C1: the concrete bad-checksum message is
processed exactly as its correctly-checksummed counterpart. -/
theorem C1_checksum_never_validated_witness :
    (SOHc ∉ str "999") ∧ (SOHc ∉ str "052")
    ∧ processMessage (C1pre ++ str "10=" ++ str "999" ++ [SOHc]) (str "c") 1 (str "T") initState
      = processMessage (C1pre ++ str "10=" ++ str "052" ++ [SOHc]) (str "c") 1 (str "T")
        initState :=
  ⟨by decide, by decide,
    C1_checksum_never_validated C1pre (str "999") (str "052")
      (Or.inr ⟨C1pre.dropLast, by decide⟩) (by decide) (by decide) _ _ _ _⟩

/-! ## Claim C8 -/

/-- A NewOrderSingle sent on a session that has never logged on. -/
def C8msg : List Char := str "35=D\x0111=C8\x0155=MSFT\x0154=1\x0138=50\x0140=2\x0144=380\x01"

/-- Counterexample to C8: on a fresh server (no session logged in, so the
session is in the Open state), a NewOrderSingle is not dropped: it admits an
order into the book and an ExecutionReport (`35=8`) is returned, while the
session set stays empty — the server emitted an ExecutionReport before any
Logon. -/
theorem C8_counterexample :
    initState.sessions = []
    ∧ ((processMessage C8msg (str "s8") 1 (str "T") initState).map
        (fun r => (r.2.book.orders.length, r.2.sessions,
          r.1.map (fun resp => parseMessage resp (str "35")))))
      = some (1, [], some (some (str "8"))) := by
  set_option maxRecDepth 10000 in decide

/-- C8 amended: `process_message` performs no session gating at all — for a
Heartbeat, NewOrderSingle or OrderCancelRequest the outcome is computed from
the book alone: the logged-in set is neither consulted (the same response
and book result from any session set, including the empty one) nor changed. -/
theorem C8_no_session_gating (msg sid : List Char) (now : ℚ) (utc : List Char)
    (bk : Book) (ss : List (List Char))
    (hmt : parseFixMsg msg (str "35") = some (str "0")
      ∨ parseFixMsg msg (str "35") = some (str "D")
      ∨ parseFixMsg msg (str "35") = some (str "F")) :
    processMessage msg sid now utc ⟨bk, ss⟩
      = (processMessage msg sid now utc ⟨bk, []⟩).map
          (fun r => (r.1, ⟨r.2.book, ss⟩)) := by
  unfold processMessage processTags
  have n0A : str "0" ≠ str "A" := by decide
  have nDA : str "D" ≠ str "A" := by decide
  have nD0 : str "D" ≠ str "0" := by decide
  have nD5 : str "D" ≠ str "5" := by decide
  have nFA : str "F" ≠ str "A" := by decide
  have nF0 : str "F" ≠ str "0" := by decide
  have nF5 : str "F" ≠ str "5" := by decide
  have nFD : str "F" ≠ str "D" := by decide
  rcases hmt with h | h | h
  · simp [h, n0A]
  · simp only [h, Option.some.injEq, if_neg nDA, if_neg nD0, if_neg nD5, reduceIte]
    cases handleNewOrder (parseFixMsg msg) now utc bk <;> simp
  · simp [h, nFA, nF0, nF5, nFD]

/-- Witness for the amended C8: the concrete pre-logon NewOrderSingle is
processed identically with an empty session set, leaving it empty. -/
theorem C8_no_session_gating_witness :
    (parseFixMsg C8msg (str "35") = some (str "0")
      ∨ parseFixMsg C8msg (str "35") = some (str "D")
      ∨ parseFixMsg C8msg (str "35") = some (str "F"))
    ∧ processMessage C8msg (str "s8") 1 (str "T") ⟨initState.book, [str "other"]⟩
      = (processMessage C8msg (str "s8") 1 (str "T") ⟨initState.book, []⟩).map
          (fun r => (r.1, ⟨r.2.book, [str "other"]⟩)) :=
  ⟨Or.inr (Or.inl (by decide)),
   C8_no_session_gating C8msg (str "s8") 1 (str "T") initState.book [str "other"]
     (Or.inr (Or.inl (by decide)))⟩

/-! ## Claim C9 -/

theorem find?_dictInsertOrder (store : List Order) (o : Order) :
    (dictInsertOrder store o).find? (fun x => x.order_id = o.order_id) = some o := by
  unfold dictInsertOrder
  by_cases h : store.any (fun x => x.order_id = o.order_id)
  · rw [if_pos h]
    induction store with
    | nil => simp at h
    | cons x xs ih =>
      by_cases hx : x.order_id = o.order_id
      · simp [setOrder, List.find?, hx]
      · have hxs : xs.any (fun x => x.order_id = o.order_id) := by
          simp only [List.any_cons, Bool.or_eq_true, decide_eq_true_eq] at h
          rcases h with h1 | h1
          · exact absurd h1 hx
          · exact h1
        simp only [setOrder, List.map_cons, if_neg hx, List.find?]
        rw [decide_eq_false hx]
        exact ih hxs
  · rw [if_neg h]
    induction store with
    | nil => simp [List.find?]
    | cons x xs ih =>
      have hx : ¬ x.order_id = o.order_id := by
        intro hc
        exact h (by simp [List.any_cons, hc])
      have hxs : ¬ xs.any (fun x => x.order_id = o.order_id) := by
        intro hc
        exact h (by simp [List.any_cons, hc])
      simp only [List.cons_append, List.find?]
      rw [decide_eq_false hx]
      exact ih hxs

theorem getOrder_addOrder (bk : Book) (o : Order) :
    getOrder (addOrder bk o) o.order_id = some o := by
  unfold getOrder addOrder
  by_cases h : o.side = some (str "1") <;> simp [h, find?_dictInsertOrder]

/-- The condition under which `handle_new_order` actually rejects: invalid
(or missing) symbol, a present non-positive price — independent of the order
type — or a non-positive quantity. -/
def rejectCondB (sym : Option (List Char)) (price : Option ℚ) (qty : Int) : Bool :=
  (match sym with | none => true | some sv => decide (sv ∉ VALID_SYMBOLS))
  || (match price with | some p => decide (p ≤ 0) | none => false)
  || decide (qty ≤ 0)

/-- The validation case analysis of `handle_new_order` (shared backbone of
the admission-validation and reject-frame claims). -/
theorem handleNewOrder_validation (tags : List Char → Option (List Char)) (now : ℚ)
    (utc : List Char) (bk : Book) (qty : Int) (price : Option ℚ)
    (hqty : pyInt (dictGetD tags (str "38") (str "0")) = some qty)
    (hpr : (tags (str "44") = none ∧ price = none)
      ∨ ∃ v p, tags (str "44") = some v ∧ pyFloat v = some p ∧ price = some p) :
    (rejectCondB (tags (str "55")) price qty = true →
      ∃ reason, handleNewOrder tags now utc bk
        = some (createRejectExecutionReport bk (tags (str "11")) (tags (str "55"))
            (tags (str "54")) qty reason utc)
        ∧ ((createRejectExecutionReport bk (tags (str "11")) (tags (str "55"))
            (tags (str "54")) qty reason utc).2).orders = bk.orders)
    ∧ (rejectCondB (tags (str "55")) price qty = false →
      ∃ sv, tags (str "55") = some sv
        ∧ handleNewOrder tags now utc bk
          = some (newOrderAccept bk (tags (str "11")) sv (tags (str "54")) qty
              (tags (str "40")) price now utc)
        ∧ getOrder (addOrder { bk with orderCounter := bk.orderCounter + 1 }
              ⟨mkOrderId bk.orderCounter, tags (str "11"), sv, tags (str "54"), qty,
               tags (str "40"), price, 0, str "0", now⟩) (mkOrderId bk.orderCounter)
          = some ⟨mkOrderId bk.orderCounter, tags (str "11"), sv, tags (str "54"), qty,
               tags (str "40"), price, 0, str "0", now⟩) := by
  have hprice_red : (match tags (str "44") with
      | none => some none
      | some v => (pyFloat v).map some) = some price := by
    rcases hpr with ⟨h1, h2⟩ | ⟨v, p, h1, h2, h3⟩
    · rw [h1, h2]
    · rw [h1]
      show (pyFloat v).map some = some price
      rw [h2, h3]
      rfl
  cases hsym : tags (str "55") with
  | none =>
    constructor
    · intro _
      refine ⟨str "Invalid symbol: " ++ optStr none, ?_, rfl⟩
      unfold handleNewOrder
      rw [hqty, hprice_red, hsym]
    · intro hfalse
      simp [rejectCondB] at hfalse
  | some sv =>
    by_cases hv : sv ∈ VALID_SYMBOLS
    · have hcondSym : (match some sv with
          | none => true
          | some sv => decide (sv ∉ VALID_SYMBOLS)) = false := by
        simp [hv]
      rcases hpr with ⟨h44, rfl⟩ | ⟨v, p, h44, hpf, rfl⟩
      · -- no price present: never a price reject
        constructor
        · intro htrue
          simp only [rejectCondB, hcondSym, Bool.false_or, Bool.or_false,
            Bool.or_eq_true, decide_eq_true_eq] at htrue
          rcases htrue with h1 | h1
          · exact absurd hv h1
          · refine ⟨str "Invalid quantity: " ++ intChars qty, ?_, rfl⟩
            unfold handleNewOrder
            rw [hqty, hprice_red, hsym]
            dsimp only
            rw [if_neg (by simp [hv]), if_neg (by simp), if_pos (by simpa using h1)]
        · intro hfalse
          simp only [rejectCondB, hcondSym, Bool.false_or, Bool.or_eq_false_iff,
            decide_eq_false_iff_not] at hfalse
          refine ⟨sv, rfl, ?_, getOrder_addOrder _ _⟩
          unfold handleNewOrder
          rw [hqty, hprice_red, hsym]
          dsimp only
          rw [if_neg (by simp [hv]), if_neg (by simp), if_neg (by simpa using hfalse.2)]
      · by_cases hple : p ≤ 0
        · constructor
          · intro _
            refine ⟨str "Invalid price: " ++ floatRepr ((some p).getD 0), ?_, rfl⟩
            unfold handleNewOrder
            rw [hqty, hprice_red, hsym]
            dsimp only
            rw [if_neg (by simp [hv]), if_pos (by simpa using hple)]
          · intro hfalse
            simp [rejectCondB, hcondSym, hple] at hfalse
        · constructor
          · intro htrue
            simp only [rejectCondB, hcondSym, Bool.false_or, Bool.or_eq_true,
              decide_eq_true_eq] at htrue
            rcases htrue with (h1 | h1) | h1
            · exact absurd hv h1
            · exact absurd h1 hple
            · refine ⟨str "Invalid quantity: " ++ intChars qty, ?_, rfl⟩
              unfold handleNewOrder
              rw [hqty, hprice_red, hsym]
              dsimp only
              rw [if_neg (by simp [hv]), if_neg (by simpa using hple),
                if_pos (by simpa using h1)]
          · intro hfalse
            simp only [rejectCondB, hcondSym, Bool.false_or, Bool.or_eq_false_iff,
              decide_eq_false_iff_not] at hfalse
            refine ⟨sv, rfl, ?_, getOrder_addOrder _ _⟩
            unfold handleNewOrder
            rw [hqty, hprice_red, hsym]
            dsimp only
            rw [if_neg (by simp [hv]), if_neg (by simpa using hple),
              if_neg (by simpa using hfalse.2)]
    · constructor
      · intro _
        refine ⟨str "Invalid symbol: " ++ optStr (some sv), ?_, rfl⟩
        unfold handleNewOrder
        rw [hqty, hprice_red, hsym]
        dsimp only
        rw [if_pos (by simpa using hv)]
      · intro hfalse
        simp [rejectCondB, hv] at hfalse

/-- C9 amended: a NewOrderSingle is rejected at admit time — the response is
`_create_reject_execution_report` (an ExecutionReport with `150=8`, `39=8`
and a tag-58 text) and the book's orders are left unchanged — iff its symbol
is outside the whitelist, or its price is present and `≤ 0` (whatever the
order type), or its quantity is `≤ 0`.  A Limit order with a missing price is
NOT rejected: every non-rejected order — missing-price Limits included — is
created with status New (`"0"`) in the book and then matched. -/
theorem C9_admission_validation (tags : List Char → Option (List Char)) (now : ℚ)
    (utc : List Char) (bk : Book) (qty : Int) (price : Option ℚ)
    (hqty : pyInt (dictGetD tags (str "38") (str "0")) = some qty)
    (hpr : (tags (str "44") = none ∧ price = none)
      ∨ ∃ v p, tags (str "44") = some v ∧ pyFloat v = some p ∧ price = some p) :
    (rejectCondB (tags (str "55")) price qty = true →
      ∃ reason, handleNewOrder tags now utc bk
        = some (createRejectExecutionReport bk (tags (str "11")) (tags (str "55"))
            (tags (str "54")) qty reason utc)
        ∧ ((createRejectExecutionReport bk (tags (str "11")) (tags (str "55"))
            (tags (str "54")) qty reason utc).2).orders = bk.orders)
    ∧ (rejectCondB (tags (str "55")) price qty = false →
      ∃ sv, tags (str "55") = some sv
        ∧ handleNewOrder tags now utc bk
          = some (newOrderAccept bk (tags (str "11")) sv (tags (str "54")) qty
              (tags (str "40")) price now utc)
        ∧ getOrder (addOrder { bk with orderCounter := bk.orderCounter + 1 }
              ⟨mkOrderId bk.orderCounter, tags (str "11"), sv, tags (str "54"), qty,
               tags (str "40"), price, 0, str "0", now⟩) (mkOrderId bk.orderCounter)
          = some ⟨mkOrderId bk.orderCounter, tags (str "11"), sv, tags (str "54"), qty,
               tags (str "40"), price, 0, str "0", now⟩) :=
  handleNewOrder_validation tags now utc bk qty price hqty hpr

/-- A Limit order (`40=2`) with a valid symbol, positive quantity and NO
price tag. -/
def C9msg : List Char := str "35=D\x0111=C9\x0155=AMZN\x0154=1\x0138=10\x0140=2\x01"

/-- Counterexample to C9: the claim demands that a Limit order with a
missing price be rejected; instead `handle_new_order` accepts it — an order
with status New (`"0"`) and `price = None` sits in the book and the response
is the `150=0` acknowledgement, not a reject. -/
theorem C9_counterexample :
    parseFixMsg C9msg (str "40") = some (str "2")
    ∧ parseFixMsg C9msg (str "44") = none
    ∧ ((processMessage C9msg (str "s") 1 (str "T") initState).map
        (fun r => (r.2.book.orders.map (fun o => (o.order_id, o.status, o.price)),
          r.1.map (fun resp => parseMessage resp (str "150")))))
      = some ([(mkOrderId 1, str "0", none)], some (some (str "0"))) := by
  set_option maxRecDepth 10000 in decide

/-- The parsed tags of a NewOrderSingle with an invalid symbol (and no
price), used to witness the reject branch of C9. -/
def C9rejTags : List Char → Option (List Char) :=
  parseFixMsg (str "35=D\x0111=R9\x0155=FOO\x0154=1\x0138=10\x0140=2\x01")

/-- Witness for the amended C9: an invalid-symbol order satisfies the reject
condition and `handle_new_order` answers it with the reject report, leaving
the orders dict unchanged. -/
theorem C9_admission_validation_witness :
    pyInt (dictGetD C9rejTags (str "38") (str "0")) = some 10
    ∧ (C9rejTags (str "44") = none ∧ (none : Option ℚ) = none)
    ∧ rejectCondB (C9rejTags (str "55")) none 10 = true
    ∧ (∃ reason, handleNewOrder C9rejTags 1 (str "T") initState.book
        = some (createRejectExecutionReport initState.book (C9rejTags (str "11"))
            (C9rejTags (str "55")) (C9rejTags (str "54")) 10 reason (str "T"))
        ∧ ((createRejectExecutionReport initState.book (C9rejTags (str "11"))
            (C9rejTags (str "55")) (C9rejTags (str "54")) 10 reason (str "T")).2).orders
          = initState.book.orders) :=
  ⟨by decide, ⟨by decide, rfl⟩, by decide,
   (C9_admission_validation C9rejTags 1 (str "T") initState.book 10 none (by decide)
     (Or.inl ⟨by decide, rfl⟩)).1 (by decide)⟩

/-! ## Claim C4 -/

theorem find?_setOrder (store : List Order) (o' : Order)
    (h : store.any (fun x => x.order_id = o'.order_id) = true) :
    (setOrder store o').find? (fun x => x.order_id = o'.order_id) = some o' := by
  induction store with
  | nil => simp at h
  | cons x xs ih =>
    by_cases hx : x.order_id = o'.order_id
    · simp [setOrder, List.find?, hx]
    · have hxs : xs.any (fun x => x.order_id = o'.order_id) := by
        simp only [List.any_cons, Bool.or_eq_true, decide_eq_true_eq] at h
        rcases h with h1 | h1
        · exact absurd h1 hx
        · exact h1
      simp only [setOrder, List.map_cons, if_neg hx, List.find?]
      rw [decide_eq_false hx]
      exact ih hxs

/-- C4 amended: `handle_cancel_request` answers an unknown `41=OrigClOrdID`
with the cancel reject (`39=8`, `58="Order not found"`) and leaves the book
alone; but for ANY found order — terminal Filled, Canceled or Rejected
included — it unconditionally overwrites the status to `"4"` and emits a
`150=4`, `39=4` execution report.  There is no NotCancellable outcome, so a
repeated cancel yields another Canceled report each time. -/
theorem C4_cancel_outcomes (tags : List Char → Option (List Char)) (utc : List Char)
    (bk : Book) :
    (bk.orders.find? (fun o => o.cl_ord_id = tags (str "41")) = none →
      handleCancelRequest tags utc bk
        = (buildFixSrv (str "8")
            [(str "11", optStr (tags (str "11"))), (str "41", optStr (tags (str "41"))),
             (str "39", str "8"), (str "58", str "Order not found")] utc, bk))
    ∧ (∀ o, bk.orders.find? (fun o => o.cl_ord_id = tags (str "41")) = some o →
        getOrder bk o.order_id = some o →
        handleCancelRequest tags utc bk
          = createExecutionReport (cancelOrder bk o.order_id).2
              (ordOf (cancelOrder bk o.order_id).2.orders o.order_id)
              (str "4") (str "4") 0 0 utc
        ∧ ordOf (cancelOrder bk o.order_id).2.orders o.order_id
            = { o with status := str "4" }) := by
  constructor
  · intro h
    unfold handleCancelRequest
    dsimp only
    rw [h]
  · intro o hf hg
    have hmem : o ∈ bk.orders := List.mem_of_find?_eq_some hg
    have hany : bk.orders.any
        (fun x => x.order_id = ({ o with status := str "4" } : Order).order_id) = true := by
      rw [List.any_eq_true]
      exact ⟨o, hmem, by simp⟩
    have h1 : List.find? (fun x => decide (x.order_id = o.order_id))
        (setOrder bk.orders { o with status := str "4" })
        = some { o with status := str "4" } :=
      find?_setOrder bk.orders { o with status := str "4" } hany
    have hcancel : ordOf (cancelOrder bk o.order_id).2.orders o.order_id
        = { o with status := str "4" } := by
      unfold cancelOrder
      rw [hg]
      dsimp only
      by_cases hs : o.side = some (str "1")
      · rw [if_pos hs]
        show (List.find? (fun x => decide (x.order_id = o.order_id))
          (setOrder bk.orders { o with status := str "4" })).getD blankOrder = _
        rw [h1]
        rfl
      · rw [if_neg hs]
        show (List.find? (fun x => decide (x.order_id = o.order_id))
          (setOrder bk.orders { o with status := str "4" })).getD blankOrder = _
        rw [h1]
        rfl
    constructor
    · unfold handleCancelRequest
      dsimp only
      rw [hf]
    · exact hcancel

/-- Crossing buy and sell that leave the buy Filled, then an
OrderCancelRequest for the buy, repeated. -/
def C4buy : List Char := str "35=D\x0111=B4\x0155=AAPL\x0154=1\x0138=100\x0140=2\x0144=150\x01"

def C4sell : List Char := str "35=D\x0111=S4\x0155=AAPL\x0154=2\x0138=100\x0140=2\x0144=150\x01"

def C4cx : List Char := str "35=F\x0111=X4\x0141=B4\x01"

def C4st : ServerState :=
  runOps [⟨C4buy, str "s", 1, str "T"⟩, ⟨C4sell, str "s", 2, str "T"⟩] initState

/-- The fully filled buy order resting in `C4st`. -/
def C4ord : Order :=
  ⟨mkOrderId 1, some (str "B4"), str "AAPL", some (str "1"), 100, some (str "2"),
   some 150, 100, str "2", 1⟩

/-- Counterexample to C4: the buy order is terminal (`filled = qty`,
status Filled), yet a cancel request returns a `150=4`/`39=4` Canceled
execution report — not NotCancellable — overwrites the terminal status to
`"4"`, and a second cancel of the same order returns a second Canceled
report. -/
theorem C4_counterexample :
    ((getOrder C4st.book (mkOrderId 1)).map (fun o => (o.filled_qty, o.order_qty, o.status))
      = some (100, 100, str "2"))
    ∧ ((processMessage C4cx (str "s") 3 (str "T") C4st).map (fun r =>
        (r.1.map (fun resp => (parseMessage resp (str "150"), parseMessage resp (str "39"))),
         (getOrder r.2.book (mkOrderId 1)).map (fun o => o.status))))
      = some (some (some (str "4"), some (str "4")), some (str "4"))
    ∧ ((processMessage C4cx (str "s") 4 (str "T")
          (stepOp C4st ⟨C4cx, str "s", 3, str "T"⟩)).map (fun r =>
        r.1.map (fun resp => (parseMessage resp (str "150"), parseMessage resp (str "39")))))
      = some (some (some (str "4"), some (str "4"))) := by
  set_option maxRecDepth 20000 in decide

/-- Witness for the amended C4: the concrete terminal order of `C4st` is
found, cancelled with a `150=4` report, and its status is overwritten. -/
theorem C4_cancel_outcomes_witness :
    C4st.book.orders.find? (fun o => o.cl_ord_id = parseFixMsg C4cx (str "41")) = some C4ord
    ∧ getOrder C4st.book C4ord.order_id = some C4ord
    ∧ (handleCancelRequest (parseFixMsg C4cx) (str "T") C4st.book
        = createExecutionReport (cancelOrder C4st.book C4ord.order_id).2
            (ordOf (cancelOrder C4st.book C4ord.order_id).2.orders C4ord.order_id)
            (str "4") (str "4") 0 0 (str "T")
      ∧ ordOf (cancelOrder C4st.book C4ord.order_id).2.orders C4ord.order_id
          = { C4ord with status := str "4" }) :=
  ⟨by set_option maxRecDepth 20000 in decide,
   by set_option maxRecDepth 20000 in decide,
   (C4_cancel_outcomes (parseFixMsg C4cx) (str "T") C4st.book).2 C4ord
     (by set_option maxRecDepth 20000 in decide)
     (by set_option maxRecDepth 20000 in decide)⟩
/-! ## Matching-loop lemmas (shared by the priority claims) -/

theorem find?_setOrder_ne (store : List Order) (o' : Order) (tid : List Char)
    (h : o'.order_id ≠ tid) :
    (setOrder store o').find? (fun x => x.order_id = tid)
      = store.find? (fun x => x.order_id = tid) := by
  induction store with
  | nil => simp [setOrder]
  | cons x xs ih =>
    by_cases hx : x.order_id = o'.order_id
    · have hxt : ¬ x.order_id = tid := by
        rw [hx]
        exact h
      simp only [setOrder, List.map_cons, if_pos hx, List.find?]
      rw [decide_eq_false h, decide_eq_false hxt]
      exact ih
    · simp only [setOrder, List.map_cons, if_neg hx, List.find?]
      cases hd : decide (x.order_id = tid)
      · exact ih
      · rfl

theorem ordOf_eq_of_getOrder (bk : Book) (oid : List Char) (o : Order)
    (h : getOrder bk oid = some o) : ordOf bk.orders oid = o := by
  unfold ordOf
  unfold getOrder at h
  rw [h]
  rfl

theorem matchLoop_stop (fuel : Nat) (bk : Book) (bids asks : List (List Char))
    (bi si : Nat) (h : ¬ (bi < bids.length ∧ si < asks.length)) :
    matchLoop fuel bk bids asks bi si = (bk, []) := by
  cases fuel with
  | zero => rfl
  | succ f =>
    unfold matchLoop
    rw [if_neg h]

/-- One pass of `match_orders`' loop over a book whose (sorted, filtered) bid
list starts with a limit order `X` crossing the single limit ask `S`, with
`S`'s remaining quantity not exceeding `X`'s: exactly one trade of
`S.remaining` at the ask price happens, filling `X` and `S`; the bid behind
the head is never touched by the loop. -/
theorem matchLoop_head_limit_cross (bk : Book) (idX idY idS : List Char) (X S : Order)
    (px ps : ℚ)
    (hX : getOrder bk idX = some X) (hS : getOrder bk idS = some S)
    (hXc : X.isComplete = false) (hSc : S.isComplete = false)
    (hXt : ¬ X.order_type = some (str "1")) (hSt : ¬ S.order_type = some (str "1"))
    (hXp : X.price = some px) (hSp : S.price = some ps)
    (hpx : px ≠ 0) (hps : ps ≠ 0) (hcross : ps ≤ px)
    (hrem : S.remaining ≤ X.remaining) :
    matchLoop 100 bk [idX, idY] [idS] 0 0
      = (addExecution
          { bk with
            orders := setOrder (setOrder bk.orders (fillO X S.remaining))
              (fillO S S.remaining) }
          ⟨X.symbol, S.remaining, ps, (fillO X S.remaining).isComplete⟩,
         [⟨X.order_id, S.order_id, S.remaining, ps⟩]) := by
  have hordX : ordOf bk.orders idX = X := ordOf_eq_of_getOrder bk idX X hX
  have hordS : ordOf bk.orders idS = S := ordOf_eq_of_getOrder bk idS S hS
  have hmin : min X.remaining S.remaining = S.remaining := min_eq_right hrem
  have hSfull : (fillO S S.remaining).isComplete = true := by
    unfold fillO Order.isComplete Order.remaining
    simp only [decide_eq_true_eq]
    omega
  have hiter : matchIter bk [idX, idY] [idS] 0 0
      = (addExecution
          { bk with
            orders := setOrder (setOrder bk.orders (fillO X S.remaining))
              (fillO S S.remaining) }
          ⟨X.symbol, S.remaining, ps, (fillO X S.remaining).isComplete⟩,
         [⟨X.order_id, S.order_id, S.remaining, ps⟩],
         some ((if (fillO X S.remaining).isComplete then 1 else 0), 1)) := by
    unfold matchIter
    simp only [List.getD_cons_zero, hordX, hordS]
    rw [if_neg (by simp [hXc]), if_neg (by simp [hSc]), if_neg hXt, if_neg hSt,
      hXp, hSp]
    dsimp only
    rw [if_pos ⟨hpx, hps, hcross⟩]
    dsimp only
    rw [hmin]
    rw [if_neg (by simp [hSfull]), hSfull]
    simp
  show matchLoop (99 + 1) bk [idX, idY] [idS] 0 0 = _
  unfold matchLoop
  rw [if_pos ⟨by simp, by simp⟩, hiter]
  dsimp only
  by_cases hXfull : (fillO X S.remaining).isComplete = true
  · rw [if_pos hXfull, matchLoop_stop _ _ _ _ _ _ (by simp)]
    simp
  · rw [if_neg hXfull, matchLoop_stop _ _ _ _ _ _ (by simp)]
    simp

theorem pySort_pair (le : α → α → Bool) (x y : α) :
    pySort le [x, y] = if le y x && !le x y then [y, x] else [x, y] := rfl

theorem getOrder_addExecution (bk : Book) (e : ExecRec) (oid : List Char) :
    getOrder (addExecution bk e) oid = getOrder bk oid := by
  unfold getOrder addExecution
  rfl

/-! ## Claim C6 -/

/-- C6: price-time priority.  Two resting buys `A` and `B` on the same
symbol at the same (positive) limit price, `A` admitted earlier
(`A.timestamp < B.timestamp`); a crossing limit ask `S` whose remaining
quantity does not exceed `A`'s arrives.  Then the match cycle trades `A`
against `S` only: the single recorded match pairs `A` with `S` at the ask
price, `A` receives the whole fill, `S` fills, and `B` is left exactly
untouched. -/
theorem C6_price_time_priority (bk : Book) (sym idA idB idS : List Char)
    (A B S : Order) (p ps : ℚ)
    (hA : getOrder bk idA = some A) (hB : getOrder bk idB = some B)
    (hS : getOrder bk idS = some S)
    (hAid : A.order_id = idA) (hSid : S.order_id = idS)
    (hAB : idA ≠ idB) (hAS : idA ≠ idS) (hBS : idB ≠ idS)
    (hbq : bk.buyQ sym = [idA, idB] ∨ bk.buyQ sym = [idB, idA])
    (hsq : bk.sellQ sym = [idS])
    (hAc : A.isComplete = false) (hBc : B.isComplete = false) (hSc : S.isComplete = false)
    (hAt : ¬ A.order_type = some (str "1")) (hSt : ¬ S.order_type = some (str "1"))
    (hAp : A.price = some p) (hBp : B.price = some p) (hppos : 0 < p)
    (hSp : S.price = some ps) (hpspos : 0 < ps) (hcross : ps ≤ p)
    (hts : A.timestamp < B.timestamp)
    (hrem : S.remaining ≤ A.remaining) :
    (matchOrders bk sym).2 = [⟨idA, idS, S.remaining, ps⟩]
    ∧ getOrder (matchOrders bk sym).1 idB = some B
    ∧ getOrder (matchOrders bk sym).1 idA = some (fillO A S.remaining)
    ∧ getOrder (matchOrders bk sym).1 idS = some (fillO S S.remaining) := by
  have hordA : ordOf bk.orders idA = A := ordOf_eq_of_getOrder bk idA A hA
  have hordB : ordOf bk.orders idB = B := ordOf_eq_of_getOrder bk idB B hB
  have hordS : ordOf bk.orders idS = S := ordOf_eq_of_getOrder bk idS S hS
  have hpne : p ≠ 0 := ne_of_gt hppos
  have hpsne : ps ≠ 0 := ne_of_gt hpspos
  have hmemA : A ∈ bk.orders := by
    unfold getOrder at hA
    exact List.mem_of_find?_eq_some hA
  have hmemS : S ∈ bk.orders := by
    unfold getOrder at hS
    exact List.mem_of_find?_eq_some hS
  suffices hmo : matchOrders bk sym = matchLoop 100 bk [idA, idB] [idS] 0 0 by
    have hloop := matchLoop_head_limit_cross bk idA idB idS A S p ps hA hS hAc hSc
      hAt hSt hAp hSp hpne hpsne hcross hrem
    rw [hmo, hloop]
    refine ⟨by rw [hAid, hSid], ?_, ?_, ?_⟩
    · rw [getOrder_addExecution]
      show (List.find? (fun x => x.order_id = idB)
        (setOrder (setOrder bk.orders (fillO A S.remaining)) (fillO S S.remaining))) = some B
      rw [find?_setOrder_ne _ _ _ (by
        show (fillO S S.remaining).order_id ≠ idB
        show S.order_id ≠ idB
        rw [hSid]
        exact hBS.symm)]
      rw [find?_setOrder_ne _ _ _ (by
        show (fillO A S.remaining).order_id ≠ idB
        show A.order_id ≠ idB
        rw [hAid]
        exact hAB)]
      unfold getOrder at hB
      exact hB
    · rw [getOrder_addExecution]
      show (List.find? (fun x => x.order_id = idA)
        (setOrder (setOrder bk.orders (fillO A S.remaining)) (fillO S S.remaining)))
          = some (fillO A S.remaining)
      rw [find?_setOrder_ne _ _ _ (by
        show (fillO S S.remaining).order_id ≠ idA
        show S.order_id ≠ idA
        rw [hSid]
        exact hAS.symm)]
      have hany : bk.orders.any
          (fun x => x.order_id = (fillO A S.remaining).order_id) = true := by
        rw [List.any_eq_true]
        exact ⟨A, hmemA, by simp [fillO]⟩
      have h2 : List.find? (fun x => x.order_id = idA)
          (setOrder bk.orders (fillO A S.remaining)) = some (fillO A S.remaining) := by
        have h3 := find?_setOrder bk.orders (fillO A S.remaining) hany
        rw [show (fillO A S.remaining).order_id = idA from by
          show A.order_id = idA
          exact hAid] at h3
        exact h3
      exact h2
    · rw [getOrder_addExecution]
      show (List.find? (fun x => x.order_id = idS)
        (setOrder (setOrder bk.orders (fillO A S.remaining)) (fillO S S.remaining)))
          = some (fillO S S.remaining)
      have hmemS' : S ∈ setOrder bk.orders (fillO A S.remaining) := by
        unfold setOrder
        rw [List.mem_map]
        refine ⟨S, hmemS, ?_⟩
        rw [if_neg (by
          show ¬ S.order_id = (fillO A S.remaining).order_id
          show ¬ S.order_id = A.order_id
          rw [hSid, hAid]
          exact hAS.symm)]
      have hany : (setOrder bk.orders (fillO A S.remaining)).any
          (fun x => x.order_id = (fillO S S.remaining).order_id) = true := by
        rw [List.any_eq_true]
        exact ⟨S, hmemS', by simp [fillO]⟩
      have h2 := find?_setOrder (setOrder bk.orders (fillO A S.remaining))
        (fillO S S.remaining) hany
      rw [show (fillO S S.remaining).order_id = idS from by
        show S.order_id = idS
        exact hSid] at h2
      exact h2
  have htr : truthyD (some p) 0 = p := by simp [truthyD, hpne]
  have hleBA : matchBuyLe bk.orders idB idA = false := by
    unfold matchBuyLe
    rw [hordA, hordB]
    dsimp only
    rw [hBp, hAp, htr]
    rw [if_neg (lt_irrefl p), if_neg (lt_irrefl p)]
    exact decide_eq_false (not_le.2 hts)
  have hleAB : matchBuyLe bk.orders idA idB = true := by
    unfold matchBuyLe
    rw [hordA, hordB]
    dsimp only
    rw [hBp, hAp, htr]
    rw [if_neg (lt_irrefl p), if_neg (lt_irrefl p)]
    exact decide_eq_true (le_of_lt hts)
  have hsF : List.filter (fun i => ¬ (ordOf bk.orders i).isComplete) [idS] = [idS] := by
    simp [List.filter, hordS, hSc]
  rcases hbq with h | h
  · have hbF : List.filter (fun i => ¬ (ordOf bk.orders i).isComplete) [idA, idB]
        = [idA, idB] := by
      simp [List.filter, hordA, hordB, hAc, hBc]
    unfold matchOrders
    rw [h, hsq, hbF, hsF, if_neg (by simp)]
    rw [pySort_pair, hleBA]
    simp only [Bool.false_and, Bool.false_eq_true, if_false]
    rfl
  · have hbF : List.filter (fun i => ¬ (ordOf bk.orders i).isComplete) [idB, idA]
        = [idB, idA] := by
      simp [List.filter, hordA, hordB, hAc, hBc]
    unfold matchOrders
    rw [h, hsq, hbF, hsF, if_neg (by simp)]
    rw [pySort_pair, hleAB, hleBA]
    simp only [Bool.not_false, Bool.and_true, if_true]
    rfl

/-! ## Claim C5 -/

/-- C5: limit-limit crossing.  In a match-cycle iteration whose best bid `X`
and best ask `S` are both resting Limit orders with positive prices, they
trade iff `ps ≤ pb`: on a cross the trade price is the ask price `ps`, the
trade quantity is `min(X.remaining, S.remaining)`, both `filled_qty` fields
grow by exactly that quantity, and each side's status becomes Filled (`"2"`)
iff its `filled_qty` reaches `order_qty` and PartiallyFilled (`"1"`)
otherwise; if `pb < ps` the iteration stops the cycle with no state change. -/
theorem C5_limit_limit_crossing (bk : Book) (bids asks : List (List Char)) (bi si : Nat)
    (X S : Order) (pb ps : ℚ)
    (hX : ordOf bk.orders (bids.getD bi []) = X)
    (hS : ordOf bk.orders (asks.getD si []) = S)
    (hXc : X.isComplete = false) (hSc : S.isComplete = false)
    (hXt : X.order_type = some (str "2")) (hSt : S.order_type = some (str "2"))
    (hXp : X.price = some pb) (hSp : S.price = some ps)
    (hpb : 0 < pb) (hps : 0 < ps) :
    (ps ≤ pb →
      matchIter bk bids asks bi si
        = (if ¬ (fillO X (min X.remaining S.remaining)).isComplete
              ∧ ¬ (fillO S (min X.remaining S.remaining)).isComplete
           then (addExecution
              { bk with
                orders := setOrder (setOrder bk.orders
                    (fillO X (min X.remaining S.remaining)))
                  (fillO S (min X.remaining S.remaining)) }
              ⟨X.symbol, min X.remaining S.remaining, ps,
               (fillO X (min X.remaining S.remaining)).isComplete⟩,
             [⟨X.order_id, S.order_id, min X.remaining S.remaining, ps⟩], none)
           else (addExecution
              { bk with
                orders := setOrder (setOrder bk.orders
                    (fillO X (min X.remaining S.remaining)))
                  (fillO S (min X.remaining S.remaining)) }
              ⟨X.symbol, min X.remaining S.remaining, ps,
               (fillO X (min X.remaining S.remaining)).isComplete⟩,
             [⟨X.order_id, S.order_id, min X.remaining S.remaining, ps⟩],
             some ((if (fillO X (min X.remaining S.remaining)).isComplete
                    then bi + 1 else bi),
                   (if (fillO S (min X.remaining S.remaining)).isComplete
                    then si + 1 else si))))
      ∧ (fillO X (min X.remaining S.remaining)).filled_qty
          = X.filled_qty + min X.remaining S.remaining
      ∧ (fillO S (min X.remaining S.remaining)).filled_qty
          = S.filled_qty + min X.remaining S.remaining
      ∧ ((fillO X (min X.remaining S.remaining)).status = str "2"
          ↔ (fillO X (min X.remaining S.remaining)).filled_qty = X.order_qty)
      ∧ ((fillO X (min X.remaining S.remaining)).status = str "1"
          ↔ ¬ (fillO X (min X.remaining S.remaining)).filled_qty = X.order_qty)
      ∧ ((fillO S (min X.remaining S.remaining)).status = str "2"
          ↔ (fillO S (min X.remaining S.remaining)).filled_qty = S.order_qty)
      ∧ ((fillO S (min X.remaining S.remaining)).status = str "1"
          ↔ ¬ (fillO S (min X.remaining S.remaining)).filled_qty = S.order_qty))
    ∧ (pb < ps → matchIter bk bids asks bi si = (bk, [], none)) := by
  have hq1 : min X.remaining S.remaining ≤ X.remaining := min_le_left _ _
  have hq2 : min X.remaining S.remaining ≤ S.remaining := min_le_right _ _
  have hstat : ∀ (o : Order) (q : Int), q ≤ o.remaining →
      ((fillO o q).filled_qty = o.filled_qty + q
      ∧ ((fillO o q).status = str "2" ↔ (fillO o q).filled_qty = o.order_qty)
      ∧ ((fillO o q).status = str "1" ↔ ¬ (fillO o q).filled_qty = o.order_qty)) := by
    intro o q hqr
    unfold fillO Order.remaining at *
    dsimp only
    refine ⟨rfl, ?_, ?_⟩
    · by_cases hle : o.order_qty ≤ o.filled_qty + q
      · rw [if_pos hle]
        constructor
        · intro _
          omega
        · intro _
          rfl
      · rw [if_neg hle]
        constructor
        · intro hcon
          exact absurd hcon (by decide)
        · intro hcon
          omega
    · by_cases hle : o.order_qty ≤ o.filled_qty + q
      · rw [if_pos hle]
        constructor
        · intro hcon
          exact absurd hcon (by decide)
        · intro hcon
          omega
      · rw [if_neg hle]
        constructor
        · intro _
          omega
        · intro _
          rfl
  constructor
  · intro hcross
    refine ⟨?_, (hstat X _ hq1).1, (hstat S _ hq2).1, (hstat X _ hq1).2.1,
      (hstat X _ hq1).2.2, (hstat S _ hq2).2.1, (hstat S _ hq2).2.2⟩
    unfold matchIter
    rw [hX, hS]
    rw [if_neg (by simp [hXc]), if_neg (by simp [hSc]), if_neg (by rw [hXt]; decide),
      if_neg (by rw [hSt]; decide), hXp, hSp]
    dsimp only
    rw [if_pos ⟨ne_of_gt hpb, ne_of_gt hps, hcross⟩]
  · intro hlt
    unfold matchIter
    rw [hX, hS]
    rw [if_neg (by simp [hXc]), if_neg (by simp [hSc]), if_neg (by rw [hXt]; decide),
      if_neg (by rw [hSt]; decide), hXp, hSp]
    dsimp only
    rw [if_neg (by
      rintro ⟨-, -, hc⟩
      exact absurd hc (not_le.2 hlt))]

/-! ## Claim C3 -/

/-- C3 amended: in `match_orders` the sort key of a price-less Market buy is
`-(None or 0) = 0`, not `-∞`, so it sorts BEHIND every positively-priced
Limit buy — whatever the timestamps.  With a Market buy `M` and a Limit buy
`L` both resting and a crossing limit ask `S` arriving (quantity within
`L`'s remaining), the match cycle trades `L` against `S` and leaves the
Market buy completely untouched. -/
theorem C3_market_buy_sorts_behind (bk : Book) (sym idL idM idS : List Char)
    (L M S : Order) (p ps : ℚ)
    (hL : getOrder bk idL = some L) (hM : getOrder bk idM = some M)
    (hS : getOrder bk idS = some S)
    (hLid : L.order_id = idL) (hSid : S.order_id = idS)
    (hLM : idL ≠ idM) (hLS : idL ≠ idS) (hMS : idM ≠ idS)
    (hbq : bk.buyQ sym = [idL, idM] ∨ bk.buyQ sym = [idM, idL])
    (hsq : bk.sellQ sym = [idS])
    (hLc : L.isComplete = false) (hMc : M.isComplete = false) (hSc : S.isComplete = false)
    (hLt : ¬ L.order_type = some (str "1")) (hSt : ¬ S.order_type = some (str "1"))
    (hLp : L.price = some p) (hMp : M.price = none) (hppos : 0 < p)
    (hSp : S.price = some ps) (hpspos : 0 < ps) (hcross : ps ≤ p)
    (hrem : S.remaining ≤ L.remaining) :
    (matchOrders bk sym).2 = [⟨idL, idS, S.remaining, ps⟩]
    ∧ getOrder (matchOrders bk sym).1 idM = some M
    ∧ getOrder (matchOrders bk sym).1 idL = some (fillO L S.remaining)
    ∧ getOrder (matchOrders bk sym).1 idS = some (fillO S S.remaining) := by
  have hordL : ordOf bk.orders idL = L := ordOf_eq_of_getOrder bk idL L hL
  have hordM : ordOf bk.orders idM = M := ordOf_eq_of_getOrder bk idM M hM
  have hordS : ordOf bk.orders idS = S := ordOf_eq_of_getOrder bk idS S hS
  have hpne : p ≠ 0 := ne_of_gt hppos
  have hpsne : ps ≠ 0 := ne_of_gt hpspos
  have hmemL : L ∈ bk.orders := by
    unfold getOrder at hL
    exact List.mem_of_find?_eq_some hL
  have hmemS : S ∈ bk.orders := by
    unfold getOrder at hS
    exact List.mem_of_find?_eq_some hS
  suffices hmo : matchOrders bk sym = matchLoop 100 bk [idL, idM] [idS] 0 0 by
    have hloop := matchLoop_head_limit_cross bk idL idM idS L S p ps hL hS hLc hSc
      hLt hSt hLp hSp hpne hpsne hcross hrem
    rw [hmo, hloop]
    refine ⟨by rw [hLid, hSid], ?_, ?_, ?_⟩
    · rw [getOrder_addExecution]
      show (List.find? (fun x => x.order_id = idM)
        (setOrder (setOrder bk.orders (fillO L S.remaining)) (fillO S S.remaining))) = some M
      rw [find?_setOrder_ne _ _ _ (by
        show (fillO S S.remaining).order_id ≠ idM
        show S.order_id ≠ idM
        rw [hSid]
        exact hMS.symm)]
      rw [find?_setOrder_ne _ _ _ (by
        show (fillO L S.remaining).order_id ≠ idM
        show L.order_id ≠ idM
        rw [hLid]
        exact hLM)]
      unfold getOrder at hM
      exact hM
    · rw [getOrder_addExecution]
      show (List.find? (fun x => x.order_id = idL)
        (setOrder (setOrder bk.orders (fillO L S.remaining)) (fillO S S.remaining)))
          = some (fillO L S.remaining)
      rw [find?_setOrder_ne _ _ _ (by
        show (fillO S S.remaining).order_id ≠ idL
        show S.order_id ≠ idL
        rw [hSid]
        exact hLS.symm)]
      have hany : bk.orders.any
          (fun x => x.order_id = (fillO L S.remaining).order_id) = true := by
        rw [List.any_eq_true]
        exact ⟨L, hmemL, by simp [fillO]⟩
      have h3 := find?_setOrder bk.orders (fillO L S.remaining) hany
      rw [show (fillO L S.remaining).order_id = idL from by
        show L.order_id = idL
        exact hLid] at h3
      exact h3
    · rw [getOrder_addExecution]
      show (List.find? (fun x => x.order_id = idS)
        (setOrder (setOrder bk.orders (fillO L S.remaining)) (fillO S S.remaining)))
          = some (fillO S S.remaining)
      have hmemS' : S ∈ setOrder bk.orders (fillO L S.remaining) := by
        unfold setOrder
        rw [List.mem_map]
        refine ⟨S, hmemS, ?_⟩
        rw [if_neg (by
          show ¬ S.order_id = (fillO L S.remaining).order_id
          show ¬ S.order_id = L.order_id
          rw [hSid, hLid]
          exact hLS.symm)]
      have hany : (setOrder bk.orders (fillO L S.remaining)).any
          (fun x => x.order_id = (fillO S S.remaining).order_id) = true := by
        rw [List.any_eq_true]
        exact ⟨S, hmemS', by simp [fillO]⟩
      have h2 := find?_setOrder (setOrder bk.orders (fillO L S.remaining))
        (fillO S S.remaining) hany
      rw [show (fillO S S.remaining).order_id = idS from by
        show S.order_id = idS
        exact hSid] at h2
      exact h2
  have hleML : matchBuyLe bk.orders idM idL = false := by
    unfold matchBuyLe
    rw [hordL, hordM]
    dsimp only
    rw [hLp, hMp]
    show (if truthyD (some p) 0 < truthyD none 0 then true
      else if truthyD none 0 < truthyD (some p) 0 then false
      else decide (M.timestamp ≤ L.timestamp)) = false
    rw [show truthyD none 0 = (0:ℚ) from rfl, show truthyD (some p) 0 = p from by
      simp [truthyD, hpne]]
    rw [if_neg (by
      intro hcon
      exact absurd hcon (by exact not_lt.2 (le_of_lt hppos))), if_pos hppos]
  have hleLM : matchBuyLe bk.orders idL idM = true := by
    unfold matchBuyLe
    rw [hordL, hordM]
    dsimp only
    rw [hLp, hMp]
    show (if truthyD none 0 < truthyD (some p) 0 then true
      else if truthyD (some p) 0 < truthyD none 0 then false
      else decide (L.timestamp ≤ M.timestamp)) = true
    rw [show truthyD none 0 = (0:ℚ) from rfl, show truthyD (some p) 0 = p from by
      simp [truthyD, hpne]]
    rw [if_pos hppos]
  have hsF : List.filter (fun i => ¬ (ordOf bk.orders i).isComplete) [idS] = [idS] := by
    simp [List.filter, hordS, hSc]
  rcases hbq with h | h
  · have hbF : List.filter (fun i => ¬ (ordOf bk.orders i).isComplete) [idL, idM]
        = [idL, idM] := by
      simp [List.filter, hordL, hordM, hLc, hMc]
    unfold matchOrders
    rw [h, hsq, hbF, hsF, if_neg (by simp)]
    rw [pySort_pair, hleML]
    simp only [Bool.false_and, Bool.false_eq_true, if_false]
    rfl
  · have hbF : List.filter (fun i => ¬ (ordOf bk.orders i).isComplete) [idM, idL]
        = [idM, idL] := by
      simp [List.filter, hordL, hordM, hLc, hMc]
    unfold matchOrders
    rw [h, hsq, hbF, hsF, if_neg (by simp)]
    rw [pySort_pair, hleLM, hleML]
    simp only [Bool.not_false, Bool.and_true, if_true]
    rfl

/-- Market buy, then limit buy, then a crossing sell, on TSLA. -/
def C3mb : List Char := str "35=D\x0111=MB\x0155=TSLA\x0154=1\x0138=10\x0140=1\x01"

def C3lb : List Char := str "35=D\x0111=LB\x0155=TSLA\x0154=1\x0138=10\x0140=2\x0144=100\x01"

def C3cs : List Char := str "35=D\x0111=CS\x0155=TSLA\x0154=2\x0138=10\x0140=2\x0144=90\x01"

def C3pre : ServerState :=
  runOps [⟨C3mb, str "s", 1, str "T"⟩, ⟨C3lb, str "s", 2, str "T"⟩] initState

def C3st : ServerState := stepOp C3pre ⟨C3cs, str "s", 3, str "T"⟩

/-- Counterexample to C3: a resting Market buy (admitted first, sitting at
the head of the stored buy queue exactly as the claim's `+∞` key predicts
for `add_order`) receives NOTHING when a crossing sell arrives: the
match cycle re-sorts with key `-(price or 0)`, the Market buy's effective
price is `0`, so the later Limit buy trades first and fills completely while
the Market buy stays at `filled_qty = 0`, status New. -/
theorem C3_counterexample :
    C3pre.book.buyQ (str "TSLA") = [mkOrderId 1, mkOrderId 2]
    ∧ ((getOrder C3pre.book (mkOrderId 1)).map (fun o => (o.order_type, o.price, o.timestamp))
        = some (some (str "1"), none, 1))
    ∧ ((getOrder C3st.book (mkOrderId 1)).map (fun o => (o.filled_qty, o.status))
        = some (0, str "0"))
    ∧ ((getOrder C3st.book (mkOrderId 2)).map (fun o => (o.filled_qty, o.status))
        = some (10, str "2")) := by
  set_option maxRecDepth 20000 in decide

/-- Concrete resting Market buy, Limit buy and crossing ask. -/
def C3wL : Order :=
  ⟨str "OL", some (str "L"), str "TSLA", some (str "1"), 10, some (str "2"),
   some 100, 0, str "0", 2⟩

def C3wM : Order :=
  ⟨str "OM", some (str "M"), str "TSLA", some (str "1"), 10, some (str "1"),
   none, 0, str "0", 1⟩

def C3wS : Order :=
  ⟨str "OS", some (str "S"), str "TSLA", some (str "2"), 10, some (str "2"),
   some 90, 0, str "0", 3⟩

def C3wbk : Book :=
  ⟨[C3wM, C3wL, C3wS],
   fun s => if s = str "TSLA" then [str "OM", str "OL"] else [],
   fun s => if s = str "TSLA" then [str "OS"] else [],
   4, 1, []⟩

/-- Witness for the amended C3 on the concrete book. -/
theorem C3_market_buy_sorts_behind_witness :
    (matchOrders C3wbk (str "TSLA")).2 = [⟨str "OL", str "OS", C3wS.remaining, 90⟩]
    ∧ getOrder (matchOrders C3wbk (str "TSLA")).1 (str "OM") = some C3wM
    ∧ getOrder (matchOrders C3wbk (str "TSLA")).1 (str "OL")
        = some (fillO C3wL C3wS.remaining)
    ∧ getOrder (matchOrders C3wbk (str "TSLA")).1 (str "OS")
        = some (fillO C3wS C3wS.remaining) :=
  C3_market_buy_sorts_behind C3wbk (str "TSLA") (str "OL") (str "OM") (str "OS")
    C3wL C3wM C3wS 100 90 (by decide) (by decide) (by decide) (by decide) (by decide)
    (by decide) (by decide) (by decide) (Or.inr (by decide)) (by decide)
    (by decide) (by decide) (by decide) (by decide) (by decide) (by decide) (by decide)
    (by decide) (by decide) (by decide) (by decide) (by decide)

/-- Concrete first-come buy `A`, second buy `B` at the same price and a
crossing ask, spec scenario S4. -/
def C6A : Order :=
  ⟨str "OA", some (str "A1"), str "MSFT", some (str "1"), 200, some (str "2"),
   some 380, 0, str "0", 1⟩

def C6B : Order :=
  ⟨str "OB", some (str "B1"), str "MSFT", some (str "1"), 200, some (str "2"),
   some 380, 0, str "0", 2⟩

def C6S : Order :=
  ⟨str "OS", some (str "S1"), str "MSFT", some (str "2"), 200, some (str "2"),
   some 380, 0, str "0", 3⟩

def C6bk : Book :=
  ⟨[C6A, C6B, C6S],
   fun s => if s = str "MSFT" then [str "OA", str "OB"] else [],
   fun s => if s = str "MSFT" then [str "OS"] else [],
   4, 1, []⟩

/-- Witness for C6 on the concrete book: BUY #1 fills, BUY #2 untouched. -/
theorem C6_price_time_priority_witness :
    (matchOrders C6bk (str "MSFT")).2 = [⟨str "OA", str "OS", C6S.remaining, 380⟩]
    ∧ getOrder (matchOrders C6bk (str "MSFT")).1 (str "OB") = some C6B
    ∧ getOrder (matchOrders C6bk (str "MSFT")).1 (str "OA")
        = some (fillO C6A C6S.remaining)
    ∧ getOrder (matchOrders C6bk (str "MSFT")).1 (str "OS")
        = some (fillO C6S C6S.remaining) :=
  C6_price_time_priority C6bk (str "MSFT") (str "OA") (str "OB") (str "OS")
    C6A C6B C6S 380 380 (by decide) (by decide) (by decide) (by decide) (by decide)
    (by decide) (by decide) (by decide) (Or.inl (by decide)) (by decide)
    (by decide) (by decide) (by decide) (by decide) (by decide) (by decide) (by decide)
    (by decide) (by decide) (by decide) (by decide) (by decide) (by decide)

/-- Concrete crossing limit pair for the C5 witness. -/
def C5X : Order :=
  ⟨str "OX", some (str "X"), str "AAPL", some (str "1"), 100, some (str "2"),
   some 150, 0, str "0", 1⟩

def C5S : Order :=
  ⟨str "OY", some (str "Y"), str "AAPL", some (str "2"), 40, some (str "2"),
   some 150, 0, str "0", 2⟩

def C5bk : Book := ⟨[C5X, C5S], fun _ => [], fun _ => [], 3, 1, []⟩

/-- Witness for C5: on the concrete crossing pair the fills add exactly the
trade quantity and the completed side is marked Filled. -/
theorem C5_limit_limit_crossing_witness :
    (fillO C5X (min C5X.remaining C5S.remaining)).filled_qty
      = C5X.filled_qty + min C5X.remaining C5S.remaining
    ∧ ((fillO C5S (min C5X.remaining C5S.remaining)).status = str "2"
        ↔ (fillO C5S (min C5X.remaining C5S.remaining)).filled_qty = C5S.order_qty) :=
  ⟨((C5_limit_limit_crossing C5bk [str "OX"] [str "OY"] 0 0 C5X C5S 150 150
      (by decide) (by decide) (by decide) (by decide) (by decide) (by decide)
      (by decide) (by decide) (by decide) (by decide)).1 (by decide)).2.1,
   ((C5_limit_limit_crossing C5bk [str "OX"] [str "OY"] 0 0 C5X C5S 150 150
      (by decide) (by decide) (by decide) (by decide) (by decide) (by decide)
      (by decide) (by decide) (by decide) (by decide)).1 (by decide)).2.2.2.2.2.1⟩

/-! ## Claim C2 -/

/-- The per-order half of the book invariant that the code actually
maintains: fills never exceed the quantity, and a fully filled order is
marked Filled (`"2"`) — unless a later cancel overwrote the status to
Canceled (`"4"`). -/
def OrdJ (o : Order) : Prop :=
  o.filled_qty ≤ o.order_qty
  ∧ (o.filled_qty = o.order_qty → o.status = str "2" ∨ o.status = str "4")

/-- The store-wide invariant. -/
def StatusInv (bk : Book) : Prop := ∀ o ∈ bk.orders, OrdJ o

theorem mem_setOrder {store : List Order} {u o' : Order}
    (h : o' ∈ setOrder store u) : o' ∈ store ∨ o' = u := by
  unfold setOrder at h
  rcases List.mem_map.1 h with ⟨x, hx, hxe⟩
  by_cases hid : x.order_id = u.order_id
  · right
    rw [if_pos hid] at hxe
    exact hxe.symm
  · left
    rw [if_neg hid] at hxe
    exact hxe ▸ hx

theorem mem_dictInsertOrder {store : List Order} {u o' : Order}
    (h : o' ∈ dictInsertOrder store u) : o' ∈ store ∨ o' = u := by
  unfold dictInsertOrder at h
  by_cases hc : store.any (fun x => x.order_id = u.order_id) = true
  · rw [if_pos hc] at h
    exact mem_setOrder h
  · rw [if_neg hc] at h
    rcases List.mem_append.1 h with h1 | h1
    · exact Or.inl h1
    · exact Or.inr (List.mem_singleton.1 h1)

theorem OrdJ_fillO (o s : Order) : OrdJ (fillO o (min o.remaining s.remaining)) := by
  unfold OrdJ
  have hq' : min o.remaining s.remaining ≤ o.order_qty - o.filled_qty :=
    min_le_left _ _
  refine ⟨?_, fun hfe => Or.inl ?_⟩
  · show o.filled_qty + min o.remaining s.remaining ≤ o.order_qty
    omega
  · have hfe' : o.filled_qty + min o.remaining s.remaining = o.order_qty := hfe
    show (if o.order_qty ≤ o.filled_qty + min o.remaining s.remaining
        then str "2" else str "1") = str "2"
    rw [if_pos (by omega)]

theorem OrdJ_fillO_right (o s : Order) : OrdJ (fillO s (min o.remaining s.remaining)) := by
  unfold OrdJ
  have hq' : min o.remaining s.remaining ≤ s.order_qty - s.filled_qty :=
    min_le_right _ _
  refine ⟨?_, fun hfe => Or.inl ?_⟩
  · show s.filled_qty + min o.remaining s.remaining ≤ s.order_qty
    omega
  · have hfe' : s.filled_qty + min o.remaining s.remaining = s.order_qty := hfe
    show (if s.order_qty ≤ s.filled_qty + min o.remaining s.remaining
        then str "2" else str "1") = str "2"
    rw [if_pos (by omega)]

theorem statusInv_fill2 (bk : Book) (b s : Order) (e : ExecRec) (h : StatusInv bk) :
    StatusInv (addExecution { bk with orders := setOrder (setOrder bk.orders (fillO b (min b.remaining s.remaining))) (fillO s (min b.remaining s.remaining)) } e) := by
  intro o ho
  have ho' : o ∈ setOrder (setOrder bk.orders (fillO b (min b.remaining s.remaining)))
      (fillO s (min b.remaining s.remaining)) := ho
  rcases mem_setOrder ho' with h1 | h1
  · rcases mem_setOrder h1 with h2 | h2
    · exact h o h2
    · exact h2 ▸ OrdJ_fillO b s
  · exact h1 ▸ OrdJ_fillO_right b s

theorem statusInv_matchIter (bk : Book) (bids asks : List (List Char)) (bi si : Nat)
    (h : StatusInv bk) : StatusInv (matchIter bk bids asks bi si).1 := by
  unfold matchIter
  dsimp only
  split
  · exact h
  · split
    · exact h
    · split
      · exact h
      · split
        · exact statusInv_fill2 bk _ _ _ h
        · exact statusInv_fill2 bk _ _ _ h

theorem statusInv_matchLoop (fuel : Nat) (bk : Book) (bids asks : List (List Char))
    (bi si : Nat) (h : StatusInv bk) :
    StatusInv (matchLoop fuel bk bids asks bi si).1 := by
  induction fuel generalizing bk bi si with
  | zero => exact h
  | succ f ih =>
    unfold matchLoop
    dsimp only
    split
    · rcases hmi : matchIter bk bids asks bi si with ⟨bk1, recs, onx⟩
      have h1 : StatusInv bk1 := by
        have h2 := statusInv_matchIter bk bids asks bi si h
        rw [hmi] at h2
        exact h2
      cases onx with
      | none => exact h1
      | some p =>
        rcases p with ⟨bi1, si1⟩
        dsimp only
        exact ih bk1 bi1 si1 h1
    · exact h

theorem statusInv_matchOrders (bk : Book) (sym : List Char) (h : StatusInv bk) :
    StatusInv (matchOrders bk sym).1 := by
  unfold matchOrders
  dsimp only
  split
  · exact h
  · exact statusInv_matchLoop 100 bk _ _ 0 0 h

theorem statusInv_addOrder (bk : Book) (o : Order) (h : StatusInv bk) (ho : OrdJ o) :
    StatusInv (addOrder bk o) := by
  intro o' ho'
  have ho'' : o' ∈ dictInsertOrder bk.orders o := by
    unfold addOrder at ho'
    dsimp only at ho'
    by_cases hs : o.side = some (str "1")
    · rw [if_pos hs] at ho'
      exact ho'
    · rw [if_neg hs] at ho'
      exact ho'
  rcases mem_dictInsertOrder ho'' with h1 | h1
  · exact h o' h1
  · exact h1 ▸ ho

theorem statusInv_cancelOrder (bk : Book) (oid : List Char) (h : StatusInv bk) :
    StatusInv (cancelOrder bk oid).2 := by
  unfold cancelOrder
  split
  · exact h
  · rename_i o hgo
    have hom : o ∈ bk.orders := List.mem_of_find?_eq_some hgo
    have key : ∀ o' ∈ setOrder bk.orders { o with status := str "4" }, OrdJ o' := by
      intro o' ho'
      rcases mem_setOrder ho' with h1 | h1
      · exact h o' h1
      · subst h1
        exact ⟨(h o hom).1, fun _ => Or.inr rfl⟩
    split
    · intro o' ho'
      exact key o' ho'
    · intro o' ho'
      exact key o' ho'

theorem foldl_book_orders {α : Type} (f : (List Char × Book) → α → List Char × Book)
    (hf : ∀ a m, ((f a m).2).orders = (a.2).orders)
    (ms : List α) (acc : List Char × Book) :
    ((ms.foldl f acc).2).orders = acc.2.orders := by
  induction ms generalizing acc with
  | nil => rfl
  | cons m ms ih => rw [List.foldl_cons, ih, hf]

theorem statusInv_foldl {α : Type} (f : (List Char × Book) → α → List Char × Book)
    (hf : ∀ a m, ((f a m).2).orders = (a.2).orders)
    (ms : List α) (acc : List Char × Book) (h : StatusInv acc.2) :
    StatusInv ((ms.foldl f acc).2) := by
  induction ms generalizing acc with
  | nil => exact h
  | cons m ms ih =>
    rw [List.foldl_cons]
    exact ih (f acc m) (fun o ho => h o ((hf acc m) ▸ ho))

theorem statusInv_newOrderAccept (bk : Book) (cl : Option (List Char)) (sv : List Char)
    (side : Option (List Char)) (qty : Int) (otype : Option (List Char))
    (price : Option ℚ) (now : ℚ) (utc : List Char) (h : StatusInv bk) (hq : 0 < qty) :
    StatusInv (newOrderAccept bk cl sv side qty otype price now utc).2 := by
  have hJ : OrdJ ⟨mkOrderId bk.orderCounter, cl, sv, side, qty, otype, price, 0,
      str "0", now⟩ := by
    unfold OrdJ
    refine ⟨?_, fun hc => ?_⟩
    · show (0 : Int) ≤ qty
      omega
    · have hc' : (0 : Int) = qty := hc
      omega
  have h2 : StatusInv (addOrder { bk with orderCounter := bk.orderCounter + 1 }
      ⟨mkOrderId bk.orderCounter, cl, sv, side, qty, otype, price, 0, str "0", now⟩) :=
    statusInv_addOrder _ _ (fun o ho => h o ho) hJ
  unfold newOrderAccept
  dsimp only
  apply statusInv_foldl
  · intro a m
    rfl
  · exact statusInv_matchOrders _ sv (fun o' ho' => h2 o' ho')

theorem statusInv_handleNewOrder (tags : List Char → Option (List Char)) (now : ℚ)
    (utc : List Char) (bk : Book) (r : List Char × Book)
    (h : StatusInv bk) (hr : handleNewOrder tags now utc bk = some r) :
    StatusInv r.2 := by
  unfold handleNewOrder at hr
  dsimp only at hr
  split at hr
  · exact Option.noConfusion hr
  · split at hr
    · exact Option.noConfusion hr
    · split at hr
      · obtain rfl := Option.some.inj hr
        exact fun o ho => h o ho
      · split at hr
        · obtain rfl := Option.some.inj hr
          exact fun o ho => h o ho
        · split at hr
          · obtain rfl := Option.some.inj hr
            exact fun o ho => h o ho
          · split at hr
            · obtain rfl := Option.some.inj hr
              exact fun o ho => h o ho
            · obtain rfl := Option.some.inj hr
              rename_i hq
              exact statusInv_newOrderAccept bk _ _ _ _ _ _ now utc h (by omega)

theorem statusInv_handleCancelRequest (tags : List Char → Option (List Char))
    (utc : List Char) (bk : Book) (h : StatusInv bk) :
    StatusInv (handleCancelRequest tags utc bk).2 := by
  unfold handleCancelRequest
  dsimp only
  split
  · exact h
  · rename_i o hfind
    exact fun o' ho' => statusInv_cancelOrder bk o.order_id h o' ho'

theorem statusInv_processTags (tags : List Char → Option (List Char)) (sid : List Char)
    (now : ℚ) (utc : List Char) (st : ServerState) (r : Option (List Char) × ServerState)
    (h : StatusInv st.book) (hr : processTags tags sid now utc st = some r) :
    StatusInv r.2.book := by
  unfold processTags at hr
  dsimp only at hr
  split at hr
  · obtain rfl := Option.some.inj hr
    exact h
  · split at hr
    · obtain rfl := Option.some.inj hr
      exact h
    · split at hr
      · obtain rfl := Option.some.inj hr
        exact h
      · split at hr
        · rw [Option.map_eq_some'] at hr
          obtain ⟨rb, hno, rfl⟩ := hr
          exact statusInv_handleNewOrder tags now utc st.book rb h hno
        · split at hr
          · obtain rfl := Option.some.inj hr
            exact statusInv_handleCancelRequest tags utc st.book h
          · obtain rfl := Option.some.inj hr
            exact h

theorem statusInv_stepOp (st : ServerState) (i : OpIn) (h : StatusInv st.book) :
    StatusInv (stepOp st i).book := by
  unfold stepOp
  split
  · exact h
  · rename_i r hr
    exact statusInv_processTags (parseFixMsg i.msg) i.sid i.now i.utc st r h hr

theorem statusInv_runOps (ops : List OpIn) (st : ServerState) (h : StatusInv st.book) :
    StatusInv (runOps ops st).book := by
  induction ops generalizing st with
  | nil => exact h
  | cons i ops ih => exact ih (stepOp st i) (statusInv_stepOp st i h)

theorem matchIter_queues (bk : Book) (bids asks : List (List Char)) (bi si : Nat) :
    ((matchIter bk bids asks bi si).1.buyQ = bk.buyQ)
    ∧ ((matchIter bk bids asks bi si).1.sellQ = bk.sellQ) := by
  unfold matchIter
  dsimp only
  split
  · exact ⟨rfl, rfl⟩
  · split
    · exact ⟨rfl, rfl⟩
    · split
      · exact ⟨rfl, rfl⟩
      · split
        · exact ⟨rfl, rfl⟩
        · exact ⟨rfl, rfl⟩

theorem matchLoop_queues (fuel : Nat) (bk : Book) (bids asks : List (List Char))
    (bi si : Nat) :
    ((matchLoop fuel bk bids asks bi si).1.buyQ = bk.buyQ)
    ∧ ((matchLoop fuel bk bids asks bi si).1.sellQ = bk.sellQ) := by
  induction fuel generalizing bk bi si with
  | zero => exact ⟨rfl, rfl⟩
  | succ f ih =>
    unfold matchLoop
    dsimp only
    split
    · rcases hmi : matchIter bk bids asks bi si with ⟨bk1, recs, onx⟩
      have hq : bk1.buyQ = bk.buyQ ∧ bk1.sellQ = bk.sellQ := by
        have h2 := matchIter_queues bk bids asks bi si
        rw [hmi] at h2
        exact h2
      cases onx with
      | none => exact hq
      | some p =>
        rcases p with ⟨bi1, si1⟩
        dsimp only
        have h2 := ih bk1 bi1 si1
        exact ⟨h2.1.trans hq.1, h2.2.trans hq.2⟩
    · exact ⟨rfl, rfl⟩

theorem matchOrders_queues (bk : Book) (sym : List Char) :
    ((matchOrders bk sym).1.buyQ = bk.buyQ) ∧ ((matchOrders bk sym).1.sellQ = bk.sellQ) := by
  unfold matchOrders
  dsimp only
  split
  · exact ⟨rfl, rfl⟩
  · exact matchLoop_queues 100 bk _ _ 0 0

/-- A limit buy and a limit sell that cross exactly (same price, same
quantity). -/
def C2buy : List Char := str "35=D\x0111=BB2\x0155=AAPL\x0154=1\x0138=100\x0140=2\x0144=150\x01"

def C2sell : List Char := str "35=D\x0111=SS2\x0155=AAPL\x0154=2\x0138=100\x0140=2\x0144=150\x01"

def C2ops : List OpIn := [⟨C2buy, str "s", 1, str "T"⟩, ⟨C2sell, str "s", 2, str "T"⟩]

/-- The server state after admitting both crossing orders. -/
def C2st : ServerState := runOps C2ops initState

/-- Counterexample to C2's queue clause: after the cross both orders are
fully filled with status Filled (`"2"`), yet each still rests in its side
queue — `match_orders` filters and sorts copies of the queues and never
writes the filtered lists back. -/
theorem C2_counterexample :
    (C2st.book.orders.map (fun o => (o.order_id, o.filled_qty, o.order_qty, o.status)))
      = [(mkOrderId 1, 100, 100, str "2"), (mkOrderId 2, 100, 100, str "2")]
    ∧ C2st.book.buyQ (str "AAPL") = [mkOrderId 1]
    ∧ C2st.book.sellQ (str "AAPL") = [mkOrderId 2] := by
  set_option maxRecDepth 20000 in decide

/-- C2 amended: the half of the book invariant the code does maintain — in
every reachable state, every stored order has `filled_qty ≤ order_qty`, and
a fully filled order carries status Filled (`"2"`) unless a later cancel
overwrote it to Canceled (`"4"`).  The queue clause of the claim is replaced
by its negation-in-force: `match_orders` leaves both resting queues of every
symbol exactly as they were, so fully filled orders are never removed from
the queues. -/
theorem C2_filled_invariant (ops : List OpIn) :
    (∀ o ∈ (runOps ops initState).book.orders,
      o.filled_qty ≤ o.order_qty
        ∧ (o.filled_qty = o.order_qty → o.status = str "2" ∨ o.status = str "4"))
    ∧ (∀ (bk : Book) (sym s : List Char),
        (matchOrders bk sym).1.buyQ s = bk.buyQ s
          ∧ (matchOrders bk sym).1.sellQ s = bk.sellQ s) :=
  ⟨statusInv_runOps ops initState (fun o ho => absurd ho (List.not_mem_nil o)),
   fun bk sym s => ⟨congrFun (matchOrders_queues bk sym).1 s,
     congrFun (matchOrders_queues bk sym).2 s⟩⟩

/-- The fully filled buy order resting in `C2st`. -/
def C2ord : Order :=
  ⟨mkOrderId 1, some (str "BB2"), str "AAPL", some (str "1"), 100, some (str "2"),
   some 150, 100, str "2", 1⟩

/-- Witness for the amended C2 at a concrete reachable state: the filled
order of `C2st` satisfies the invariant, and a concrete `match_orders` run
leaves the AAPL queues untouched. -/
theorem C2_filled_invariant_witness :
    C2ord ∈ (runOps C2ops initState).book.orders
    ∧ (C2ord.filled_qty ≤ C2ord.order_qty
      ∧ (C2ord.filled_qty = C2ord.order_qty → C2ord.status = str "2" ∨ C2ord.status = str "4"))
    ∧ ((matchOrders C2st.book (str "AAPL")).1.buyQ (str "AAPL")
          = C2st.book.buyQ (str "AAPL")
      ∧ (matchOrders C2st.book (str "AAPL")).1.sellQ (str "AAPL")
          = C2st.book.sellQ (str "AAPL")) :=
  ⟨set_option maxRecDepth 20000 in by decide,
   (C2_filled_invariant C2ops).1 C2ord (set_option maxRecDepth 20000 in by decide),
   (C2_filled_invariant []).2 C2st.book (str "AAPL") (str "AAPL")⟩

/-! ## Claim C10 -/

theorem natVal_append (cs : List Char) (c : Char) :
    natVal (cs ++ [c]) = 10 * natVal cs + (c.toNat - 48) := by
  unfold natVal
  rw [List.foldl_append]
  rfl

theorem digitChar_val (d : Nat) (h : d < 10) : (digitChar d).toNat - 48 = d := by
  interval_cases d <;> decide

theorem natCharsF_fuel (n : Nat) :
    ∀ f f', n < f → n < f' → natCharsF f n = natCharsF f' n := by
  induction n using Nat.strong_induction_on with
  | _ n ih =>
    intro f f' hf hf'
    cases f with
    | zero => exact absurd hf (Nat.not_lt_zero n)
    | succ g =>
      cases f' with
      | zero => exact absurd hf' (Nat.not_lt_zero n)
      | succ g' =>
        unfold natCharsF
        by_cases h10 : n < 10
        · rw [if_pos h10, if_pos h10]
        · rw [if_neg h10, if_neg h10]
          have hdiv : n / 10 < n := Nat.div_lt_self (by omega) (by omega)
          rw [ih (n / 10) hdiv g g' (by omega) (by omega)]

theorem natChars_small (n : Nat) (h : n < 10) : natChars n = [digitChar n] := by
  unfold natChars natCharsF
  rw [if_pos h]

theorem natChars_step (n : Nat) (h : 10 ≤ n) :
    natChars n = natChars (n / 10) ++ [digitChar (n % 10)] := by
  show natCharsF (n + 1) n = natCharsF (n / 10 + 1) (n / 10) ++ [digitChar (n % 10)]
  rw [show natCharsF (n + 1) n
      = if n < 10 then [digitChar n] else natCharsF n (n / 10) ++ [digitChar (n % 10)]
    from rfl]
  rw [if_neg (by omega)]
  have hdiv : n / 10 < n := Nat.div_lt_self (by omega) (by omega)
  rw [natCharsF_fuel (n / 10) n (n / 10 + 1) (by omega) (Nat.lt_succ_self _)]

theorem natVal_natChars (n : Nat) : natVal (natChars n) = n := by
  induction n using Nat.strong_induction_on with
  | _ n ih =>
    by_cases h10 : n < 10
    · rw [natChars_small n h10]
      show 10 * 0 + ((digitChar n).toNat - 48) = n
      rw [digitChar_val n h10]
      omega
    · rw [natChars_step n (by omega), natVal_append,
        ih (n / 10) (Nat.div_lt_self (by omega) (by omega)),
        digitChar_val (n % 10) (Nat.mod_lt _ (by omega))]
      omega

theorem foldl_zeros (k : Nat) :
    List.foldl (fun a c => 10 * a + (c.toNat - 48)) 0 (List.replicate k '0') = 0 := by
  induction k with
  | zero => rfl
  | succ m ih =>
    rw [List.replicate_succ, List.foldl_cons]
    exact ih

theorem natVal_padZ (w : Nat) (cs : List Char) : natVal (padZ w cs) = natVal cs := by
  unfold padZ natVal
  rw [List.foldl_append, foldl_zeros]

theorem mkOrderId_inj {a b : Nat} (h : mkOrderId a = mkOrderId b) : a = b := by
  unfold mkOrderId at h
  have h2 : padZ 6 (natChars a) = padZ 6 (natChars b) := (List.append_inj h rfl).2
  calc a = natVal (padZ 6 (natChars a)) := by rw [natVal_padZ, natVal_natChars]
    _ = natVal (padZ 6 (natChars b)) := by rw [h2]
    _ = b := by rw [natVal_padZ, natVal_natChars]

theorem blank_ne_mkOrderId (n : Nat) : blankOrder.order_id ≠ mkOrderId n := by
  intro h
  have h2 := congrArg List.length h
  simp [blankOrder, mkOrderId, str] at h2

/-- The exchange id drawn for counter value `n` is spent: the counter has
moved past `n` and no stored order carries that id. -/
def IdFresh (n : Nat) (bk : Book) : Prop :=
  n < bk.orderCounter ∧ ∀ o ∈ bk.orders, o.order_id ≠ mkOrderId n

theorem ordOf_id_ne (store : List Order) (i : List Char) (n : Nat)
    (h : ∀ o ∈ store, o.order_id ≠ mkOrderId n) :
    (ordOf store i).order_id ≠ mkOrderId n := by
  unfold ordOf
  rcases hf : store.find? (fun o => o.order_id = i) with _ | o
  · rw [hf]
    exact blank_ne_mkOrderId n
  · rw [hf]
    exact h o (List.mem_of_find?_eq_some hf)

theorem idFresh_fill2 (bk : Book) (ib is : List Char) (q : Int) (e : ExecRec) (n : Nat)
    (h : IdFresh n bk) :
    IdFresh n (addExecution { bk with orders := setOrder (setOrder bk.orders (fillO (ordOf bk.orders ib) q)) (fillO (ordOf bk.orders is) q) } e) := by
  refine ⟨h.1, fun o' ho' => ?_⟩
  have ho'' : o' ∈ setOrder (setOrder bk.orders (fillO (ordOf bk.orders ib) q))
      (fillO (ordOf bk.orders is) q) := ho'
  rcases mem_setOrder ho'' with h1 | h1
  · rcases mem_setOrder h1 with h2 | h2
    · exact h.2 o' h2
    · rw [h2]
      exact ordOf_id_ne bk.orders ib n h.2
  · rw [h1]
    exact ordOf_id_ne bk.orders is n h.2

theorem idFresh_matchIter (bk : Book) (bids asks : List (List Char)) (bi si : Nat)
    (n : Nat) (h : IdFresh n bk) : IdFresh n (matchIter bk bids asks bi si).1 := by
  unfold matchIter
  dsimp only
  split
  · exact h
  · split
    · exact h
    · split
      · exact h
      · split
        · exact idFresh_fill2 bk _ _ _ _ n h
        · exact idFresh_fill2 bk _ _ _ _ n h

theorem idFresh_matchLoop (fuel : Nat) (bk : Book) (bids asks : List (List Char))
    (bi si : Nat) (n : Nat) (h : IdFresh n bk) :
    IdFresh n (matchLoop fuel bk bids asks bi si).1 := by
  induction fuel generalizing bk bi si with
  | zero => exact h
  | succ f ih =>
    unfold matchLoop
    dsimp only
    split
    · rcases hmi : matchIter bk bids asks bi si with ⟨bk1, recs, onx⟩
      have h1 : IdFresh n bk1 := by
        have h2 := idFresh_matchIter bk bids asks bi si n h
        rw [hmi] at h2
        exact h2
      cases onx with
      | none => exact h1
      | some p =>
        rcases p with ⟨bi1, si1⟩
        dsimp only
        exact ih bk1 bi1 si1 h1
    · exact h

theorem idFresh_matchOrders (bk : Book) (sym : List Char) (n : Nat) (h : IdFresh n bk) :
    IdFresh n (matchOrders bk sym).1 := by
  unfold matchOrders
  dsimp only
  split
  · exact h
  · exact idFresh_matchLoop 100 bk _ _ 0 0 n h

theorem idFresh_addOrder (bk : Book) (o : Order) (n : Nat) (h : IdFresh n bk)
    (ho : o.order_id ≠ mkOrderId n) : IdFresh n (addOrder bk o) := by
  have hcnt : (addOrder bk o).orderCounter = bk.orderCounter := by
    unfold addOrder
    dsimp only
    split <;> rfl
  refine ⟨by rw [hcnt]; exact h.1, fun o' ho' => ?_⟩
  have ho'' : o' ∈ dictInsertOrder bk.orders o := by
    unfold addOrder at ho'
    dsimp only at ho'
    by_cases hs : o.side = some (str "1")
    · rw [if_pos hs] at ho'
      exact ho'
    · rw [if_neg hs] at ho'
      exact ho'
  rcases mem_dictInsertOrder ho'' with h1 | h1
  · exact h.2 o' h1
  · exact h1 ▸ ho

theorem idFresh_cancelOrder (bk : Book) (oid : List Char) (n : Nat) (h : IdFresh n bk) :
    IdFresh n (cancelOrder bk oid).2 := by
  unfold cancelOrder
  split
  · exact h
  · rename_i o hgo
    have hom : o ∈ bk.orders := List.mem_of_find?_eq_some hgo
    have key : ∀ o' ∈ setOrder bk.orders { o with status := str "4" },
        o'.order_id ≠ mkOrderId n := by
      intro o' ho'
      rcases mem_setOrder ho' with h1 | h1
      · exact h.2 o' h1
      · subst h1
        exact h.2 o hom
    split
    · exact ⟨h.1, fun o' ho' => key o' ho'⟩
    · exact ⟨h.1, fun o' ho' => key o' ho'⟩

theorem idFresh_foldl {α : Type} (f : (List Char × Book) → α → List Char × Book)
    (hf : ∀ a m, ((f a m).2).orders = (a.2).orders
      ∧ ((f a m).2).orderCounter = (a.2).orderCounter)
    (ms : List α) (acc : List Char × Book) (n : Nat) (h : IdFresh n acc.2) :
    IdFresh n ((ms.foldl f acc).2) := by
  induction ms generalizing acc with
  | nil => exact h
  | cons m ms ih =>
    rw [List.foldl_cons]
    refine ih (f acc m) ⟨?_, fun o ho => h.2 o ((hf acc m).1 ▸ ho)⟩
    rw [(hf acc m).2]
    exact h.1

theorem idFresh_newOrderAccept (bk : Book) (cl : Option (List Char)) (sv : List Char)
    (side : Option (List Char)) (qty : Int) (otype : Option (List Char))
    (price : Option ℚ) (now : ℚ) (utc : List Char) (n : Nat) (h : IdFresh n bk) :
    IdFresh n (newOrderAccept bk cl sv side qty otype price now utc).2 := by
  obtain ⟨hlt, hids⟩ := h
  have hne : (⟨mkOrderId bk.orderCounter, cl, sv, side, qty, otype, price, 0,
      str "0", now⟩ : Order).order_id ≠ mkOrderId n := by
    intro hc
    exact absurd (mkOrderId_inj hc) (by omega)
  have h2 : IdFresh n (addOrder { bk with orderCounter := bk.orderCounter + 1 }
      ⟨mkOrderId bk.orderCounter, cl, sv, side, qty, otype, price, 0, str "0", now⟩) :=
    idFresh_addOrder _ _ n ⟨Nat.lt_succ_of_lt hlt, hids⟩ hne
  unfold newOrderAccept
  dsimp only
  apply idFresh_foldl
  · intro a m
    exact ⟨rfl, rfl⟩
  · exact idFresh_matchOrders _ sv n ⟨h2.1, fun o ho => h2.2 o ho⟩

theorem idFresh_handleNewOrder (tags : List Char → Option (List Char)) (now : ℚ)
    (utc : List Char) (bk : Book) (r : List Char × Book) (n : Nat)
    (h : IdFresh n bk) (hr : handleNewOrder tags now utc bk = some r) :
    IdFresh n r.2 := by
  unfold handleNewOrder at hr
  dsimp only at hr
  split at hr
  · exact Option.noConfusion hr
  · split at hr
    · exact Option.noConfusion hr
    · split at hr
      · obtain rfl := Option.some.inj hr
        exact ⟨Nat.lt_succ_of_lt h.1, fun o ho => h.2 o ho⟩
      · split at hr
        · obtain rfl := Option.some.inj hr
          exact ⟨Nat.lt_succ_of_lt h.1, fun o ho => h.2 o ho⟩
        · split at hr
          · obtain rfl := Option.some.inj hr
            exact ⟨Nat.lt_succ_of_lt h.1, fun o ho => h.2 o ho⟩
          · split at hr
            · obtain rfl := Option.some.inj hr
              exact ⟨Nat.lt_succ_of_lt h.1, fun o ho => h.2 o ho⟩
            · obtain rfl := Option.some.inj hr
              exact idFresh_newOrderAccept bk _ _ _ _ _ _ now utc n h

theorem idFresh_handleCancelRequest (tags : List Char → Option (List Char))
    (utc : List Char) (bk : Book) (n : Nat) (h : IdFresh n bk) :
    IdFresh n (handleCancelRequest tags utc bk).2 := by
  unfold handleCancelRequest
  dsimp only
  split
  · exact h
  · rename_i o hfind
    have h2 := idFresh_cancelOrder bk o.order_id n h
    exact ⟨h2.1, fun o' ho' => h2.2 o' ho'⟩

theorem idFresh_processTags (tags : List Char → Option (List Char)) (sid : List Char)
    (now : ℚ) (utc : List Char) (st : ServerState) (r : Option (List Char) × ServerState)
    (n : Nat) (h : IdFresh n st.book) (hr : processTags tags sid now utc st = some r) :
    IdFresh n r.2.book := by
  unfold processTags at hr
  dsimp only at hr
  split at hr
  · obtain rfl := Option.some.inj hr
    exact h
  · split at hr
    · obtain rfl := Option.some.inj hr
      exact h
    · split at hr
      · obtain rfl := Option.some.inj hr
        exact h
      · split at hr
        · rw [Option.map_eq_some'] at hr
          obtain ⟨rb, hno, rfl⟩ := hr
          exact idFresh_handleNewOrder tags now utc st.book rb n h hno
        · split at hr
          · obtain rfl := Option.some.inj hr
            exact idFresh_handleCancelRequest tags utc st.book n h
          · obtain rfl := Option.some.inj hr
            exact h

theorem idFresh_stepOp (st : ServerState) (i : OpIn) (n : Nat) (h : IdFresh n st.book) :
    IdFresh n (stepOp st i).book := by
  unfold stepOp
  split
  · exact h
  · rename_i r hr
    exact idFresh_processTags (parseFixMsg i.msg) i.sid i.now i.utc st r n h hr

theorem idFresh_runOps (ops : List OpIn) (st : ServerState) (n : Nat)
    (h : IdFresh n st.book) : IdFresh n (runOps ops st).book := by
  induction ops generalizing st with
  | nil => exact h
  | cons i ops ih => exact ih (stepOp st i) (idFresh_stepOp st i n h)

/-- C10: a NewOrderSingle that fails admission validation is answered by the
reject report whose tag 37 carries the freshly drawn order id; the book's
orders dict and both side queues are exactly unchanged while both id
counters advance by one, and the drawn id is in the book neither now nor
after any further sequence of inbound messages. -/
theorem C10_reject_frame (tags : List Char → Option (List Char)) (now : ℚ)
    (utc : List Char) (bk : Book) (qty : Int) (price : Option ℚ)
    (hqty : pyInt (dictGetD tags (str "38") (str "0")) = some qty)
    (hpr : (tags (str "44") = none ∧ price = none)
      ∨ ∃ v p, tags (str "44") = some v ∧ pyFloat v = some p ∧ price = some p)
    (hcond : rejectCondB (tags (str "55")) price qty = true)
    (habs : ∀ o ∈ bk.orders, o.order_id ≠ mkOrderId bk.orderCounter) :
    ∃ reason r,
      handleNewOrder tags now utc bk = some r
      ∧ r.1 = buildFixSrv (str "8")
          (rejectReportTags (tags (str "11")) (tags (str "55")) (tags (str "54")) qty
            (mkOrderId bk.orderCounter) (mkExecId bk.execCounter) reason utc) utc
      ∧ r.2.orders = bk.orders
      ∧ r.2.buyQ = bk.buyQ
      ∧ r.2.sellQ = bk.sellQ
      ∧ r.2.orderCounter = bk.orderCounter + 1
      ∧ r.2.execCounter = bk.execCounter + 1
      ∧ dictOf (rejectReportTags (tags (str "11")) (tags (str "55")) (tags (str "54")) qty
            (mkOrderId bk.orderCounter) (mkExecId bk.execCounter) reason utc) (str "37")
          = some (mkOrderId bk.orderCounter)
      ∧ getOrder r.2 (mkOrderId bk.orderCounter) = none
      ∧ ∀ (ops : List OpIn) (ss : List (List Char)),
          getOrder (runOps ops ⟨r.2, ss⟩).book (mkOrderId bk.orderCounter) = none := by
  obtain ⟨reason, heq, _⟩ :=
    (handleNewOrder_validation tags now utc bk qty price hqty hpr).1 hcond
  refine ⟨reason, createRejectExecutionReport bk (tags (str "11")) (tags (str "55"))
    (tags (str "54")) qty reason utc, heq, rfl, rfl, rfl, rfl, rfl, rfl, ?_, ?_, ?_⟩
  · rfl
  · show List.find? _ bk.orders = none
    rw [List.find?_eq_none]
    intro x hx
    simp only [decide_eq_true_eq]
    exact habs x hx
  · intro ops ss
    have hf : IdFresh bk.orderCounter
        (createRejectExecutionReport bk (tags (str "11")) (tags (str "55"))
          (tags (str "54")) qty reason utc).2 :=
      ⟨Nat.lt_succ_self _, fun o ho => habs o ho⟩
    have h2 := idFresh_runOps ops
      ⟨(createRejectExecutionReport bk (tags (str "11")) (tags (str "55"))
        (tags (str "54")) qty reason utc).2, ss⟩ bk.orderCounter hf
    unfold getOrder
    rw [List.find?_eq_none]
    intro x hx
    simp only [decide_eq_true_eq]
    exact h2.2 x hx

/-- The parsed tags of a NewOrderSingle with quantity `0` (a valid symbol
and no price), used to witness the reject-frame theorem. -/
def C10tags : List Char → Option (List Char) :=
  parseFixMsg (str "35=D\x0111=RX\x0155=AAPL\x0154=1\x0138=0\x0140=2\x01")

/-- Witness for C10: the zero-quantity order is rejected out of the fresh
server's book; the frame, the counter advances, the tag-37 id and its
permanent absence from the book all follow from the theorem. -/
theorem C10_reject_frame_witness :
    pyInt (dictGetD C10tags (str "38") (str "0")) = some 0
    ∧ (C10tags (str "44") = none ∧ (none : Option ℚ) = none)
    ∧ rejectCondB (C10tags (str "55")) none 0 = true
    ∧ ∃ reason r,
        handleNewOrder C10tags 1 (str "T") initState.book = some r
        ∧ r.1 = buildFixSrv (str "8")
            (rejectReportTags (C10tags (str "11")) (C10tags (str "55"))
              (C10tags (str "54")) 0 (mkOrderId initState.book.orderCounter)
              (mkExecId initState.book.execCounter) reason (str "T")) (str "T")
        ∧ r.2.orders = initState.book.orders
        ∧ r.2.buyQ = initState.book.buyQ
        ∧ r.2.sellQ = initState.book.sellQ
        ∧ r.2.orderCounter = initState.book.orderCounter + 1
        ∧ r.2.execCounter = initState.book.execCounter + 1
        ∧ dictOf (rejectReportTags (C10tags (str "11")) (C10tags (str "55"))
              (C10tags (str "54")) 0 (mkOrderId initState.book.orderCounter)
              (mkExecId initState.book.execCounter) reason (str "T")) (str "37")
            = some (mkOrderId initState.book.orderCounter)
        ∧ getOrder r.2 (mkOrderId initState.book.orderCounter) = none
        ∧ ∀ (ops : List OpIn) (ss : List (List Char)),
            getOrder (runOps ops ⟨r.2, ss⟩).book (mkOrderId initState.book.orderCounter)
              = none :=
  ⟨by decide, ⟨by decide, rfl⟩, by decide,
   C10_reject_frame C10tags 1 (str "T") initState.book 0 none (by decide)
     (Or.inl ⟨by decide, rfl⟩) (by decide)
     (fun o ho => absurd ho (List.not_mem_nil o))⟩
